import Mathlib

/-!
Verification of the relation-aware retrieval engine of the
`zorgwaard-knowledge-base` repository.

The Python sources are shallowly embedded as executable Lean definitions:

* vectors are `List ℚ` (machine floats are modelled as exact rationals);
* the square root used by `np.linalg.norm` is passed in as an explicit
  function parameter `sqrt : ℚ → ℚ` (the surrounding algorithms only
  compare the resulting values, so all theorems hold for every `sqrt`);
* SQL queries are modelled as pure functions over an explicit database
  state (`DBState`), with the pgvector `cosine_distance` operator passed
  in as an abstract `dist` parameter (it is an external collaborator);
* SQLAlchemy transactions become `Except String DBState`: a failed
  operation returns `.error` and the caller keeps the unchanged state.
-/

namespace Zorgwaard

/-! ## Vector primitives (src/infrastructure/llm.py, src/OLD/llm-OLD.py) -/

/-- `np.dot` on equal-length vectors: sum of pointwise products. -/
def dot (a b : List ℚ) : ℚ :=
  (List.zipWith (· * ·) a b).sum

/-- Sum of squares of a vector; `np.linalg.norm a = sqrt (sumSq a)`. -/
def sumSq (a : List ℚ) : ℚ :=
  dot a a

/-- `_cos_sim` from `src/infrastructure/llm.py` (identical in
`src/OLD/llm-OLD.py`): guard on zero norms, otherwise
`dot(a, b) / (norm(a) * norm(b))`.  `sqrt` abstracts `np.sqrt`. -/
def cos_sim (sqrt : ℚ → ℚ) (a b : List ℚ) : ℚ :=
  let norm_a := sqrt (sumSq a)
  let norm_b := sqrt (sumSq b)
  if norm_a = 0 ∨ norm_b = 0 then 0
  else dot a b / (norm_a * norm_b)

/-- Python `max(xs, default=d)`: the default only when the list is empty. -/
def pyMax (l : List ℚ) (d : ℚ) : ℚ :=
  match l with
  | [] => d
  | x :: xs => xs.foldl max x

/-- `int(np.argmax(l))`: index of the first occurrence of the maximum
(`0` for the empty list, which `np.argmax` rejects). -/
def argmaxIdx (l : List ℚ) : Nat :=
  match l.max? with
  | none => 0
  | some m => List.indexOf m l

/-- Python `max(scores, key=lambda item: item[1])`: first pair whose second
component is maximal (later pairs replace only on strict improvement). -/
def pickBest (l : List (Nat × ℚ)) : Nat × ℚ :=
  match l with
  | [] => (0, 0)
  | p :: ps => ps.foldl (fun b q => if b.2 < q.2 then q else b) p

/-! ### Specifications of the primitives -/

theorem max?_spec {l : List ℚ} (h : l ≠ []) :
    ∃ m, l.max? = some m ∧ m ∈ l ∧ ∀ b ∈ l, b ≤ m := by
  cases hl : l.max? with
  | none =>
    rcases l with _ | ⟨x, xs⟩
    · exact absurd rfl h
    · simp [List.max?] at hl
  | some m =>
    refine ⟨m, rfl, ?_⟩
    haveI : Std.Antisymm (fun (a b : ℚ) => a ≤ b) :=
      ⟨by intro a b h1 h2; exact le_antisymm h1 h2⟩
    rw [List.max?_eq_some_iff (fun a => le_refl a) (fun a b => max_choice a b)
      (fun a b c => max_le_iff)] at hl
    exact hl

theorem argmaxIdx_lt_length {l : List ℚ} (h : l ≠ []) :
    argmaxIdx l < l.length := by
  obtain ⟨m, hm, hmem, _⟩ := max?_spec h
  simpa [argmaxIdx, hm] using List.indexOf_lt_length.mpr hmem

theorem argmaxIdx_max {l : List ℚ} (h : l ≠ []) :
    ∀ j < l.length, l.getD j 0 ≤ l.getD (argmaxIdx l) 0 := by
  obtain ⟨m, hm, hmem, hmax⟩ := max?_spec h
  intro j hj
  have hidx : List.indexOf m l < l.length := List.indexOf_lt_length.mpr hmem
  have hval : l.getD (argmaxIdx l) 0 = m := by
    simp only [argmaxIdx, hm]
    rw [List.getD_eq_getElem _ _ hidx]
    exact List.getElem_indexOf hidx
  rw [hval, List.getD_eq_getElem _ _ hj]
  exact hmax _ (List.getElem_mem hj)

theorem pickBest_foldl_spec (ps : List (Nat × ℚ)) :
    ∀ p : Nat × ℚ,
      (ps.foldl (fun b q => if b.2 < q.2 then q else b) p = p ∨
        ps.foldl (fun b q => if b.2 < q.2 then q else b) p ∈ ps) ∧
      p.2 ≤ (ps.foldl (fun b q => if b.2 < q.2 then q else b) p).2 ∧
      ∀ q ∈ ps, q.2 ≤ (ps.foldl (fun b q => if b.2 < q.2 then q else b) p).2 := by
  induction ps with
  | nil => intro p; simp
  | cons r rs ih =>
    intro p
    simp only [List.foldl_cons]
    by_cases hlt : p.2 < r.2
    · simp only [if_pos hlt]
      obtain ⟨hmem, hbase, hall⟩ := ih r
      refine ⟨?_, le_of_lt (lt_of_lt_of_le hlt hbase), ?_⟩
      · rcases hmem with heq | hmem
        · exact Or.inr (by rw [heq]; exact List.mem_cons_self r rs)
        · exact Or.inr (List.mem_cons_of_mem r hmem)
      · intro q hq
        rcases List.mem_cons.mp hq with rfl | hq
        · exact hbase
        · exact hall q hq
    · simp only [if_neg hlt]
      obtain ⟨hmem, hbase, hall⟩ := ih p
      refine ⟨?_, hbase, ?_⟩
      · rcases hmem with heq | hmem
        · exact Or.inl heq
        · exact Or.inr (List.mem_cons_of_mem r hmem)
      · intro q hq
        rcases List.mem_cons.mp hq with rfl | hq
        · exact le_trans (le_of_not_lt hlt) hbase
        · exact hall q hq

theorem pickBest_mem {l : List (Nat × ℚ)} (h : l ≠ []) : pickBest l ∈ l := by
  rcases l with _ | ⟨p, ps⟩
  · exact absurd rfl h
  · obtain ⟨hmem, _, _⟩ := pickBest_foldl_spec ps p
    rcases hmem with heq | hmem
    · rw [pickBest, heq]; exact List.mem_cons_self p ps
    · exact List.mem_cons_of_mem p hmem

theorem pickBest_max {l : List (Nat × ℚ)} :
    ∀ q ∈ l, q.2 ≤ (pickBest l).2 := by
  rcases l with _ | ⟨p, ps⟩
  · intro q hq; simp at hq
  · intro q hq
    obtain ⟨_, hbase, hall⟩ := pickBest_foldl_spec ps p
    rcases List.mem_cons.mp hq with rfl | hq
    · exact hbase
    · exact hall q hq

/-! ## `_mmr` (src/infrastructure/llm.py lines 322-344, identical in
src/OLD/llm-OLD.py lines 429-451)

The Python `while candidates and len(chosen) < k` loop removes exactly one
candidate per iteration, so it runs at most `len(candidates)` iterations;
`mmrGo` makes that bound an explicit structural fuel argument. -/

/-- The selection score of the `else` branch of `_mmr`'s loop:
`lambda_ * relevance[i] - (1 - lambda_) * diversity`, where `diversity`
is `max((sim i j for j in chosen), default=0.0)`. -/
def mmrScore (rel : List ℚ) (sim : Nat → Nat → ℚ) (lambda_ : ℚ)
    (chosen : List Nat) (c : Nat) : ℚ :=
  lambda_ * rel.getD c 0 - (1 - lambda_) * pyMax (chosen.map (sim c)) 0

/-- The `scores` list built for the unpicked candidates. -/
def mmrScores (rel : List ℚ) (sim : Nat → Nat → ℚ) (lambda_ : ℚ)
    (chosen cands : List Nat) : List (Nat × ℚ) :=
  cands.map (fun c => (c, mmrScore rel sim lambda_ chosen c))

/-- One-to-one image of `_mmr`'s while loop, with fuel. -/
def mmrGo (rel : List ℚ) (sim : Nat → Nat → ℚ) (lambda_ : ℚ) (k : Nat) :
    Nat → List Nat → List Nat → List Nat
  | 0, chosen, _ => chosen
  | fuel + 1, chosen, cands =>
    if cands = [] ∨ k ≤ chosen.length then chosen
    else if chosen = [] then
      mmrGo rel sim lambda_ k fuel (chosen ++ [argmaxIdx rel])
        (cands.erase (argmaxIdx rel))
    else
      let best := (pickBest (mmrScores rel sim lambda_ chosen cands)).1
      mmrGo rel sim lambda_ k fuel (chosen ++ [best]) (cands.erase best)

/-- The relevance vector computed up front:
`[_cos_sim(document_embedding, e) for e in candidate_embeddings]`. -/
def mmrRelevance (sqrt : ℚ → ℚ) (document_embedding : List ℚ)
    (candidate_embeddings : List (List ℚ)) : List ℚ :=
  candidate_embeddings.map (cos_sim sqrt document_embedding)

/-- Pairwise candidate similarity
`_cos_sim(candidate_embeddings[i], candidate_embeddings[j])`. -/
def mmrSim (sqrt : ℚ → ℚ) (candidate_embeddings : List (List ℚ)) :
    Nat → Nat → ℚ :=
  fun i j => cos_sim sqrt (candidate_embeddings.getD i [])
    (candidate_embeddings.getD j [])

/-- `_mmr(document_embedding, candidate_embeddings, lambda_, k)`. -/
def mmr (sqrt : ℚ → ℚ) (document_embedding : List ℚ)
    (candidate_embeddings : List (List ℚ)) (lambda_ : ℚ) (k : Nat) :
    List Nat :=
  mmrGo (mmrRelevance sqrt document_embedding candidate_embeddings)
    (mmrSim sqrt candidate_embeddings) lambda_ k
    candidate_embeddings.length [] (List.range candidate_embeddings.length)

/-- The Python signature defaults `lambda_` to `0.7`. -/
def mmrDefault (sqrt : ℚ → ℚ) (document_embedding : List ℚ)
    (candidate_embeddings : List (List ℚ)) (k : Nat) : List Nat :=
  mmr sqrt document_embedding candidate_embeddings (7 / 10) k

/-! ### MMR loop invariants -/

theorem nodup_get_not_mem_take {α : Type} {l : List α} (h : l.Nodup)
    (m : Nat) (hm : m < l.length) : l.get ⟨m, hm⟩ ∉ l.take m := by
  intro hmem
  have hsplit := List.take_append_drop m l
  rw [← hsplit] at h
  have hd : l.get ⟨m, hm⟩ ∈ l.drop m := by
    rw [List.get_eq_getElem, List.drop_eq_getElem_cons hm]
    exact List.mem_cons_self _ _
  exact (List.nodup_append.mp h).2.2 hmem hd

theorem get_eq_of_getElem? {α : Type} {l : List α} {m : Nat}
    (hm : m < l.length) {x : α} (h : l[m]? = some x) : l.get ⟨m, hm⟩ = x := by
  rw [List.get_eq_getElem, List.getElem_eq_iff]
  exact h

theorem mmrGo_master (rel : List ℚ) (sim : Nat → Nat → ℚ) (lambda_ : ℚ)
    (k : Nat) :
    ∀ (fuel : Nat) (chosen cands r : List Nat),
      r = mmrGo rel sim lambda_ k fuel chosen cands →
      cands.length ≤ fuel →
      chosen.Nodup → cands.Nodup →
      (∀ x, x ∈ cands ↔ (x < rel.length ∧ x ∉ chosen)) →
      (∀ x ∈ chosen, x < rel.length) →
      chosen.length ≤ k →
      chosen <+: r ∧ r.Nodup ∧ (∀ x ∈ r, x < rel.length) ∧
      r.length = min k (chosen.length + cands.length) ∧
      ∀ (m : Nat) (hm : m < r.length), chosen.length ≤ m →
        (m = 0 → r.get ⟨m, hm⟩ = argmaxIdx rel) ∧
        (0 < m → ∀ c, c < rel.length → c ∉ r.take m →
          mmrScore rel sim lambda_ (r.take m) c ≤
          mmrScore rel sim lambda_ (r.take m) (r.get ⟨m, hm⟩)) := by
  intro fuel
  induction fuel with
  | zero =>
    intro chosen cands r hr hf hnc _hncs _hchar hbnd hlenk
    have hcand : cands = [] := List.eq_nil_of_length_eq_zero (Nat.le_zero.mp hf)
    subst hcand
    simp only [mmrGo] at hr
    subst hr
    refine ⟨List.prefix_refl _, hnc, hbnd, ?_, ?_⟩
    · simp [Nat.min_eq_right hlenk]
    · intro m hm hle
      exact absurd hle (by omega)
  | succ fuel ih =>
    intro chosen cands r hr hf hnc hncs hchar hbnd hlenk
    rw [mmrGo] at hr
    by_cases hstop : cands = [] ∨ k ≤ chosen.length
    · rw [if_pos hstop] at hr
      subst hr
      refine ⟨List.prefix_refl _, hnc, hbnd, ?_, ?_⟩
      · rcases hstop with hc | hk
        · subst hc; simp [Nat.min_eq_right hlenk]
        · have hek := le_antisymm hlenk hk
          rw [hek]
          exact (Nat.min_eq_left (Nat.le_add_right _ _)).symm
      · intro m hm hle
        exact absurd hle (by omega)
    · rw [if_neg hstop] at hr
      push_neg at hstop
      obtain ⟨hcne, hklt'⟩ := hstop
      by_cases hc0 : chosen = []
      · rw [if_pos hc0] at hr
        subst hc0
        have hrelne : rel ≠ [] := by
          obtain ⟨x, hx⟩ := List.exists_mem_of_ne_nil cands hcne
          have hx' := (hchar x).mp hx
          intro h0
          rw [h0] at hx'
          simp at hx'
        have hidxlt : argmaxIdx rel < rel.length := argmaxIdx_lt_length hrelne
        have hidxmem : argmaxIdx rel ∈ cands := (hchar _).mpr ⟨hidxlt, by simp⟩
        have hflen : (cands.erase (argmaxIdx rel)).length ≤ fuel := by
          rw [List.length_erase_of_mem hidxmem]
          omega
        have hchar' : ∀ x, x ∈ cands.erase (argmaxIdx rel) ↔
            (x < rel.length ∧ x ∉ ([] ++ [argmaxIdx rel] : List Nat)) := by
          intro x
          rw [hncs.mem_erase_iff, hchar x]
          simp
          tauto
        obtain ⟨hpre, hnodup, hbound, hlen, hpick⟩ :=
          ih ([] ++ [argmaxIdx rel]) (cands.erase (argmaxIdx rel)) r hr hflen
            (by simp) (hncs.erase _) hchar' (by simpa using hidxlt)
            (by simpa using hklt')
        refine ⟨List.nil_prefix, hnodup, hbound, ?_, ?_⟩
        · rw [hlen, List.length_erase_of_mem hidxmem]
          have h1 : 1 ≤ cands.length := List.length_pos_of_ne_nil hcne
          simp only [List.nil_append, List.length_singleton, List.length_nil,
            Nat.zero_add]
          congr 1
          omega
        · intro m hm _hle0
          by_cases hm0 : m = 0
          · subst hm0
            constructor
            · intro _
              obtain ⟨t, ht⟩ := hpre
              refine get_eq_of_getElem? hm ?_
              rw [← ht]
              simp
            · intro h0
              exact absurd h0 (lt_irrefl 0)
          · have h1le : 1 ≤ m := by omega
            have hres := hpick m hm (by simpa using h1le)
            exact ⟨fun h => absurd h hm0, hres.2⟩
      · rw [if_neg hc0] at hr
        have hscne : List.map (fun c => (c, mmrScore rel sim lambda_ chosen c))
            cands ≠ [] := fun h => hcne (List.map_eq_nil_iff.mp h)
        obtain ⟨best, hbestmem, hc0eq⟩ := List.mem_map.mp (pickBest_mem hscne)
        have hr' : r = mmrGo rel sim lambda_ k fuel (chosen ++ [best])
            (cands.erase best) := by
          rw [hr]
          simp only [mmrScores]
          rw [← hc0eq]
        clear hr
        have hbestmax : ∀ c ∈ cands,
            mmrScore rel sim lambda_ chosen c ≤
            mmrScore rel sim lambda_ chosen best := by
          intro c hc
          have hmem : (c, mmrScore rel sim lambda_ chosen c) ∈
              List.map (fun c => (c, mmrScore rel sim lambda_ chosen c)) cands :=
            List.mem_map_of_mem _ hc
          have hle := pickBest_max _ hmem
          rw [← hc0eq] at hle
          exact hle
        have hbestlt : best < rel.length := ((hchar best).mp hbestmem).1
        have hbestnotin : best ∉ chosen := ((hchar best).mp hbestmem).2
        have hflen : (cands.erase best).length ≤ fuel := by
          rw [List.length_erase_of_mem hbestmem]
          omega
        have hnc' : (chosen ++ [best]).Nodup := by
          refine List.Nodup.append hnc (by simp) ?_
          intro a ha hb
          simp at hb
          subst hb
          exact hbestnotin ha
        have hchar' : ∀ x, x ∈ cands.erase best ↔
            (x < rel.length ∧ x ∉ chosen ++ [best]) := by
          intro x
          rw [hncs.mem_erase_iff, hchar x]
          simp [List.mem_append]
          tauto
        have hbnd' : ∀ x ∈ chosen ++ [best], x < rel.length := by
          intro x hx
          rcases List.mem_append.mp hx with h | h
          · exact hbnd x h
          · simp at h; subst h; exact hbestlt
        have hlenk' : (chosen ++ [best]).length ≤ k := by simp; omega
        obtain ⟨hpre, hnodup, hbound, hlen, hpick⟩ :=
          ih (chosen ++ [best]) (cands.erase best) r hr' hflen hnc'
            (hncs.erase _) hchar' hbnd' hlenk'
        have hpre0 : chosen <+: r :=
          List.IsPrefix.trans (List.prefix_append chosen [best]) hpre
        refine ⟨hpre0, hnodup, hbound, ?_, ?_⟩
        · rw [hlen, List.length_erase_of_mem hbestmem]
          have h1 : 1 ≤ cands.length := List.length_pos_of_ne_nil hcne
          simp only [List.length_append, List.length_singleton]
          congr 1
          omega
        · intro m hm hlem
          by_cases hmeq : m = chosen.length
          · subst hmeq
            have hchne : chosen.length ≠ 0 := by
              intro h
              exact hc0 (List.eq_nil_of_length_eq_zero h)
            constructor
            · intro h0
              exact absurd h0 hchne
            · intro _ c hclt hcnotin
              have htake1 : chosen ++ [best] = r.take (chosen.length + 1) := by
                have h := List.prefix_iff_eq_take.mp hpre
                simpa using h
              have htake0 : chosen = r.take chosen.length :=
                List.prefix_iff_eq_take.mp hpre0
              have hget : r.get ⟨chosen.length, hm⟩ = best := by
                obtain ⟨t, ht⟩ := hpre
                refine get_eq_of_getElem? hm ?_
                rw [← ht, List.getElem?_append]
                rw [if_pos (by simp : chosen.length < (chosen ++ [best]).length)]
                exact List.getElem?_concat_length chosen best
              rw [hget, ← htake0]
              rw [← htake0] at hcnotin
              exact hbestmax c ((hchar c).mpr ⟨hclt, hcnotin⟩)
          · have h1le : chosen.length + 1 ≤ m := by omega
            have hres := hpick m hm (by simpa using h1le)
            refine ⟨fun h0 => absurd h0 (by omega), hres.2⟩

/-! ## Claim theorems for the MMR selector and cosine primitive -/

/-- The selection discipline claimed for `_mmr` (spec section 4.3, steps 3-4):
the first pick maximises relevance, every later pick is an unpicked
candidate maximising `lambda_ * relevance - (1 - lambda_) * diversity`. -/
def MMRSelectionSpec (rel : List ℚ) (sim : Nat → Nat → ℚ) (lambda_ : ℚ)
    (r : List Nat) : Prop :=
  (∀ hm : 0 < r.length,
    r.get ⟨0, hm⟩ = argmaxIdx rel ∧
    ∀ j, j < rel.length → rel.getD j 0 ≤ rel.getD (r.get ⟨0, hm⟩) 0) ∧
  (∀ (m : Nat) (hm : m < r.length), 0 < m →
    r.get ⟨m, hm⟩ ∉ r.take m ∧ r.get ⟨m, hm⟩ < rel.length ∧
    ∀ c, c < rel.length → c ∉ r.take m →
      mmrScore rel sim lambda_ (r.take m) c ≤
      mmrScore rel sim lambda_ (r.take m) (r.get ⟨m, hm⟩))

/-- C3: for every non-empty candidate-embedding list the MMR selector picks
first the candidate of maximum relevance (cosine similarity to the document
embedding); every subsequent pick is an unpicked candidate maximising
`lambda_ * relevance[i] - (1 - lambda_) * max_sim_to_picked`, and the Python
signature defaults `lambda_` to `0.7`. -/
theorem mmr_greedy_selection (sqrt : ℚ → ℚ) (doc : List ℚ)
    (cands : List (List ℚ)) (lambda_ : ℚ) (k : Nat)
    (hne : cands ≠ []) (hk : 0 < k) :
    0 < (mmr sqrt doc cands lambda_ k).length ∧
    MMRSelectionSpec (mmrRelevance sqrt doc cands) (mmrSim sqrt cands)
      lambda_ (mmr sqrt doc cands lambda_ k) ∧
    mmrDefault sqrt doc cands k = mmr sqrt doc cands (7 / 10) k := by
  have hrel : (mmrRelevance sqrt doc cands).length = cands.length := by
    simp [mmrRelevance]
  have hrelne : mmrRelevance sqrt doc cands ≠ [] := by
    intro h
    exact hne (List.map_eq_nil_iff.mp h)
  obtain ⟨_, hnodup, hbound, hlen, hpick⟩ :=
    mmrGo_master (mmrRelevance sqrt doc cands) (mmrSim sqrt cands) lambda_ k
      cands.length [] (List.range cands.length) (mmr sqrt doc cands lambda_ k)
      rfl (by simp) (by simp) (List.nodup_range _)
      (by intro x; simp [hrel, List.mem_range]) (by simp) (by simp)
  have hpos : 0 < (mmr sqrt doc cands lambda_ k).length := by
    rw [hlen]
    have h1 : 0 < cands.length := List.length_pos_of_ne_nil hne
    simp only [List.length_nil, List.length_range, Nat.zero_add]
    exact lt_min hk h1
  refine ⟨hpos, ⟨?_, ?_⟩, rfl⟩
  · intro hm
    have h0 := (hpick 0 hm (Nat.zero_le 0)).1 rfl
    refine ⟨h0, ?_⟩
    intro j hj
    rw [h0]
    exact argmaxIdx_max hrelne j hj
  · intro m hm hm0
    refine ⟨nodup_get_not_mem_take hnodup m hm, ?_, ?_⟩
    · exact hbound _ (List.get_mem _ _ _)
    · exact (hpick m hm (Nat.zero_le m)).2 hm0

/-- Witness for C3 at a concrete input: document `[1, 0]`, candidates
`[[1, 0], [0, 1]]`, `k = 2`. -/
theorem mmr_greedy_selection_witness :
    ([[(1 : ℚ), 0], [0, 1]] : List (List ℚ)) ≠ [] ∧ 0 < 2 ∧
    (0 < (mmr (fun q => q) [1, 0] [[1, 0], [0, 1]] (7 / 10) 2).length ∧
      MMRSelectionSpec (mmrRelevance (fun q => q) [1, 0] [[1, 0], [0, 1]])
        (mmrSim (fun q => q) [[1, 0], [0, 1]]) (7 / 10)
        (mmr (fun q => q) [1, 0] [[1, 0], [0, 1]] (7 / 10) 2) ∧
      mmrDefault (fun q => q) [1, 0] [[1, 0], [0, 1]] 2 =
        mmr (fun q => q) [1, 0] [[1, 0], [0, 1]] (7 / 10) 2) :=
  ⟨by simp, by decide,
    mmr_greedy_selection (fun q => q) [1, 0] [[1, 0], [0, 1]] (7 / 10) 2
      (by simp) (by decide)⟩

/-- C9: `_cos_sim` returns exactly `0.0` when either argument has zero norm,
and otherwise evaluates `dot a b / (norm_a * norm_b)` with a provably
non-zero denominator. -/
theorem cos_sim_zero_norm_guard (sqrt : ℚ → ℚ) (a b : List ℚ) :
    (sqrt (sumSq a) = 0 ∨ sqrt (sumSq b) = 0 → cos_sim sqrt a b = 0) ∧
    (sqrt (sumSq a) ≠ 0 → sqrt (sumSq b) ≠ 0 →
      cos_sim sqrt a b = dot a b / (sqrt (sumSq a) * sqrt (sumSq b)) ∧
      sqrt (sumSq a) * sqrt (sumSq b) ≠ 0) := by
  constructor
  · intro h
    rw [cos_sim]
    exact if_pos h
  · intro ha hb
    constructor
    · rw [cos_sim]
      exact if_neg (by push_neg; exact ⟨ha, hb⟩)
    · exact mul_ne_zero ha hb

/-- Witness for C9: the zero vector `[0, 0]` (zero norm) against `[3, 4]`
gives exactly `0`, and `[1]` against `[2]` takes the division branch with a
non-zero denominator. -/
theorem cos_sim_zero_norm_guard_witness :
    cos_sim (fun q => q) [(0 : ℚ), 0] [3, 4] = 0 ∧
    (fun q : ℚ => q) (sumSq [(1 : ℚ)]) * (fun q : ℚ => q) (sumSq [(2 : ℚ)]) ≠ 0 :=
  ⟨(cos_sim_zero_norm_guard (fun q => q) [0, 0] [3, 4]).1
      (Or.inl (by norm_num [sumSq, dot])),
    ((cos_sim_zero_norm_guard (fun q => q) [1] [2]).2
      (by norm_num [sumSq, dot]) (by norm_num [sumSq, dot])).2⟩

/-- C10: for every candidate list of length `n` and every `k`, `_mmr`
returns pairwise-distinct indices, all in `[0, n)`, and exactly
`min k n` of them. -/
theorem mmr_output_shape (sqrt : ℚ → ℚ) (doc : List ℚ)
    (cands : List (List ℚ)) (lambda_ : ℚ) (k : Nat) :
    (mmr sqrt doc cands lambda_ k).Nodup ∧
    (∀ i ∈ mmr sqrt doc cands lambda_ k, i < cands.length) ∧
    (mmr sqrt doc cands lambda_ k).length = min k cands.length := by
  have hrel : (mmrRelevance sqrt doc cands).length = cands.length := by
    simp [mmrRelevance]
  obtain ⟨_, hnodup, hbound, hlen, _⟩ :=
    mmrGo_master (mmrRelevance sqrt doc cands) (mmrSim sqrt cands) lambda_ k
      cands.length [] (List.range cands.length) (mmr sqrt doc cands lambda_ k)
      rfl (by simp) (by simp) (List.nodup_range _)
      (by intro x; simp [hrel, List.mem_range]) (by simp) (by simp)
  refine ⟨hnodup, ?_, ?_⟩
  · intro i hi
    have := hbound i hi
    rwa [hrel] at this
  · rw [hlen]
    simp

/-- Witness for C10 at a concrete input (two candidates, `k = 5`). -/
theorem mmr_output_shape_witness :
    (mmr (fun q => q) [1, 0] [[(1 : ℚ), 0], [0, 1]] (7 / 10) 5).Nodup ∧
    (∀ i ∈ mmr (fun q => q) [1, 0] [[(1 : ℚ), 0], [0, 1]] (7 / 10) 5,
      i < ([[(1 : ℚ), 0], [0, 1]] : List (List ℚ)).length) ∧
    (mmr (fun q => q) [1, 0] [[(1 : ℚ), 0], [0, 1]] (7 / 10) 5).length =
      min 5 ([[(1 : ℚ), 0], [0, 1]] : List (List ℚ)).length :=
  mmr_output_shape (fun q => q) [1, 0] [[(1 : ℚ), 0], [0, 1]] (7 / 10) 5

/-! ## Python string helpers

`str.strip()` / `str.lower()` are modelled structurally over the character
list (ASCII case folding, which covers every status / entity-type literal
in the repository). -/

def isPyWhitespace (c : Char) : Bool :=
  c == ' ' || c == '\t' || c == '\n' || c == '\r'

/-- Python `s.strip()`. -/
def pyStrip (s : String) : String :=
  String.mk (((s.data.dropWhile isPyWhitespace).reverse.dropWhile
    isPyWhitespace).reverse)

/-- Python `s.lower()` (ASCII). -/
def pyLower (s : String) : String :=
  String.mk (s.data.map (fun c =>
    if 'A' ≤ c && c ≤ 'Z' then Char.ofNat (c.toNat + 32) else c))

/-- Python `s.strip().lower()`. -/
def pyStripLower (s : String) : String :=
  pyLower (pyStrip s)

/-- Python `a or b` on an optional / possibly-empty string
(`None` and `""` are falsy). -/
def pyOr (a : Option String) (b : String) : String :=
  match a with
  | none => b
  | some s => if s = "" then b else s

/-! ## Data model (src/models/*.py, src/OLD/db-OLD.py)

Identifiers (UUIDs in the source) are modelled as `Nat`; timestamps as
`Nat`.  An `Embedding` row is `(note_id, vector)` — `note_id` is its
primary key, so a note has at most one embedding. -/

structure Note where
  id : Nat
  title : String
  content : String
  summary : String
  author : String
  status : String
  created_at : Nat
  updated_at : Nat
deriving DecidableEq

structure Entity where
  id : Nat
  entity_type : String
  value : String
  canonical_value : Option String
deriving DecidableEq

structure NoteEntity where
  note_id : Nat
  entity_id : Nat
  role : Option String
deriving DecidableEq

structure NoteRelation where
  id : Nat
  source_note_id : Nat
  target_note_id : Nat
  relation_type : String
  confidence : Option ℚ
deriving DecidableEq

structure DBState where
  notes : List Note
  embeddings : List (Nat × List ℚ)
  relations : List NoteRelation
  entities : List Entity
  noteEntities : List NoteEntity
deriving DecidableEq

def lookupEmbedding (db : DBState) (nid : Nat) : Option (List ℚ) :=
  (db.embeddings.find? (fun p => p.1 == nid)).map (fun p => p.2)

def lookupNote (db : DBState) (nid : Nat) : Option Note :=
  db.notes.find? (fun n => n.id == nid)

def lookupEntity (db : DBState) (eid : Nat) : Option Entity :=
  db.entities.find? (fun e => e.id == eid)

/-- `note.entities`: the NoteEntity links of a note. -/
def linksOf (db : DBState) (nid : Nat) : List NoteEntity :=
  db.noteEntities.filter (fun l => l.note_id == nid)

/-! ## Similarity search, current generation
(src/services/note_service.py, `search_notes_by_similarity`)

The SQL query joins notes with their embeddings, keeps
`status == "published"`, orders by pgvector `cosine_distance` ascending
and limits to `max_candidates`; the Python loop then applies the entity
filter and stops once `limit` results are collected.  The distance
operator is an external collaborator and is passed in as `dist`. -/

structure NoteSearchResult where
  note : Note
  score : ℚ
deriving DecidableEq

/-- The Python-side entity filter applied to one candidate note
(body of the `for note, score in rows:` loop before the append). -/
def notePassesEntityFilter (db : DBState) (normalized_type : String)
    (normalized_values : List String) (n : Note) : Bool :=
  if normalized_type = "" then true
  else
    let relevant_links := (linksOf db n.id).filter (fun l =>
      match lookupEntity db l.entity_id with
      | some e => pyStripLower e.entity_type == normalized_type
      | none => false)
    if relevant_links = [] then false
    else if normalized_values = [] then true
    else
      let note_values := relevant_links.map (fun l =>
        match lookupEntity db l.entity_id with
        | some e => pyStripLower (pyOr e.canonical_value e.value)
        | none => "")
      normalized_values.all (fun v => note_values.contains v)

/-- The collection loop: append a passing row, then
`if len(results) >= limit: break`. -/
def collectResults (db : DBState) (normalized_type : String)
    (normalized_values : List String) (limit : Nat) :
    List (Note × ℚ) → Nat → List NoteSearchResult
  | [], _ => []
  | (n, s) :: rest, count =>
    if notePassesEntityFilter db normalized_type normalized_values n then
      ⟨n, s⟩ :: (if limit ≤ count + 1 then []
        else collectResults db normalized_type normalized_values limit rest
          (count + 1))
    else collectResults db normalized_type normalized_values limit rest count

/-- The candidate rows of `search_notes_by_similarity`: published notes
joined with their embedding, ordered by ascending distance, first
`max_candidates` of them, scored `1 - distance`. -/
def searchCandidateRows (dist : List ℚ → List ℚ → ℚ) (db : DBState)
    (embedding : List ℚ) (limit : Nat) : List (Note × ℚ) :=
  let max_candidates := max (limit * 4) limit
  let joined := db.notes.filterMap (fun n =>
    (lookupEmbedding db n.id).map (fun e => (n, e)))
  let published := joined.filter (fun p => p.1.status == "published")
  let sorted := List.insertionSort
    (fun p q => dist embedding p.2 ≤ dist embedding q.2) published
  (sorted.take max_candidates).map (fun p => (p.1, 1 - dist embedding p.2))

/-- `search_notes_by_similarity(embedding, limit=, entity_type=,
entity_values=)`. -/
def search_notes_by_similarity (dist : List ℚ → List ℚ → ℚ) (db : DBState)
    (embedding : List ℚ) (limit : Nat) (entity_type : Option String)
    (entity_values : List String) : List NoteSearchResult :=
  if embedding = [] then []
  else
    let normalized_type := pyStripLower (entity_type.getD "")
    let normalized_values := entity_values.filterMap (fun v =>
      if pyStrip v = "" then none else some (pyStripLower v))
    collectResults db normalized_type normalized_values limit
      (searchCandidateRows dist db embedding limit) 0

/-! ### Membership lemmas for the current search -/

theorem mem_collectResults {db ty vals limit} :
    ∀ {rows : List (Note × ℚ)} {count : Nat} {r : NoteSearchResult},
      r ∈ collectResults db ty vals limit rows count →
      (r.note, r.score) ∈ rows ∧
      notePassesEntityFilter db ty vals r.note = true := by
  intro rows
  induction rows with
  | nil => intro count r hr; simp [collectResults] at hr
  | cons p rest ih =>
    intro count r hr
    obtain ⟨n, s⟩ := p
    rw [collectResults] at hr
    by_cases hpass : notePassesEntityFilter db ty vals n = true
    · rw [if_pos hpass] at hr
      rcases List.mem_cons.mp hr with rfl | hr
      · exact ⟨List.mem_cons_self _ _, hpass⟩
      · by_cases hstop : limit ≤ count + 1
        · rw [if_pos hstop] at hr
          simp at hr
        · rw [if_neg hstop] at hr
          obtain ⟨h1, h2⟩ := ih hr
          exact ⟨List.mem_cons_of_mem _ h1, h2⟩
    · rw [if_neg hpass] at hr
      obtain ⟨h1, h2⟩ := ih hr
      exact ⟨List.mem_cons_of_mem _ h1, h2⟩

theorem mem_searchCandidateRows {dist db embedding limit}
    {p : Note × ℚ} (hp : p ∈ searchCandidateRows dist db embedding limit) :
    p.1 ∈ db.notes ∧ p.1.status = "published" ∧
    ∃ e, lookupEmbedding db p.1.id = some e ∧ p.2 = 1 - dist embedding e := by
  rw [searchCandidateRows] at hp
  obtain ⟨q, hq, hpq⟩ := List.mem_map.mp hp
  have hq1 := List.mem_of_mem_take hq
  have hq2 := (List.perm_insertionSort _ _).subset hq1
  obtain ⟨hq3, hq4⟩ := List.mem_filter.mp hq2
  obtain ⟨n, hn, hne⟩ := List.mem_filterMap.mp hq3
  obtain ⟨e, he, hee⟩ := Option.map_eq_some'.mp hne
  subst hee
  subst hpq
  refine ⟨hn, by simpa using hq4, e, he, rfl⟩

/-- `_distance_to_score` from src/OLD/db-OLD.py lines 753-756:
`None` passes through, otherwise `max(0.0, 1.0 - float(distance))`. -/
def distance_to_score (distance : Option ℚ) : Option ℚ :=
  match distance with
  | none => none
  | some d => some (max 0 (1 - d))

/-! ## Claim C4 -/

/-- An exact cosine distance usable on vectors whose norms are rational
(the identity stands in for the square root, which is exact on `0` and
`1`). -/
def exactCosDist : List ℚ → List ℚ → ℚ :=
  fun a b => 1 - cos_sim (fun q => q) a b

def c4Note : Note :=
  { id := 0, title := "t", content := "c", summary := "", author := "a",
    status := "published", created_at := 0, updated_at := 0 }

def c4DB : DBState :=
  { notes := [c4Note], embeddings := [(0, [-1, 0])], relations := [],
    entities := [], noteEntities := [] }

/-- Counterexample to C4 as stated: with query `[1, 0]` and a published
note whose embedding is `[-1, 0]` (cosine distance `2`),
`search_notes_by_similarity` returns score `-1`, which is below `0` —
the current search does not clamp at all. -/
theorem similarity_score_clamping_cx :
    search_notes_by_similarity exactCosDist c4DB [1, 0] 5 none [] =
      [⟨c4Note, -1⟩] ∧ ¬(0 ≤ (-1 : ℚ)) := by
  constructor
  · norm_num [search_notes_by_similarity, searchCandidateRows,
      collectResults, notePassesEntityFilter, lookupEmbedding, exactCosDist,
      cos_sim, dot, sumSq, c4DB, c4Note, pyStripLower, pyStrip, pyLower,
      List.insertionSort, List.find?]
    all_goals simp
  · norm_num

/-- C4 (amended): every score returned by the current
`search_notes_by_similarity` is exactly `1 - cosine_distance(query, e)` for
the note's stored embedding `e`, with no clamping; the legacy
`_distance_to_score` clamps from below only, `max(0, 1 - d)`, which lies in
`[0, 1]` whenever the distance lies in `[0, 2]`. -/
theorem similarity_score_formula (dist : List ℚ → List ℚ → ℚ)
    (db : DBState) (q : List ℚ) (limit : Nat) (entity_type : Option String)
    (entity_values : List String) :
    (∀ r ∈ search_notes_by_similarity dist db q limit entity_type
        entity_values,
      ∃ e, lookupEmbedding db r.note.id = some e ∧ r.score = 1 - dist q e) ∧
    (∀ d : ℚ, distance_to_score (some d) = some (max 0 (1 - d))) ∧
    (∀ d : ℚ, 0 ≤ d → d ≤ 2 → 0 ≤ max 0 (1 - d) ∧ max 0 (1 - d) ≤ 1) := by
  refine ⟨?_, fun d => rfl, ?_⟩
  · intro r hr
    rw [search_notes_by_similarity] at hr
    split at hr
    · simp at hr
    · obtain ⟨hrow, _⟩ := mem_collectResults hr
      obtain ⟨_, _, e, he, hse⟩ := mem_searchCandidateRows hrow
      exact ⟨e, he, hse⟩
  · intro d _h0 h2
    exact ⟨le_max_left _ _, max_le (by norm_num) (by linarith)⟩

/-- Witness for C4 (amended) at the concrete database of the
counterexample. -/
theorem similarity_score_formula_witness :
    ∃ e, lookupEmbedding c4DB c4Note.id = some e ∧
      (-1 : ℚ) = 1 - exactCosDist [1, 0] e :=
  (similarity_score_formula exactCosDist c4DB [1, 0] 5 none []).1
    ⟨c4Note, -1⟩
    (by
      norm_num [search_notes_by_similarity, searchCandidateRows,
        collectResults, notePassesEntityFilter, lookupEmbedding, exactCosDist,
        cos_sim, dot, sumSq, c4DB, c4Note, pyStripLower, pyStrip, pyLower,
        List.insertionSort, List.find?]
      all_goals simp)

/-! ## Claim C5 -/

/-- The normalisation the service applies to the requested entity values:
`{value.strip().lower() for value in entity_values if value and
value.strip()}`. -/
def normalizedEntityValues (entity_values : List String) : List String :=
  entity_values.filterMap (fun v =>
    if pyStrip v = "" then none else some (pyStripLower v))

/-- C5: when an entity filter with a type and specific values is supplied,
every note returned by `search_notes_by_similarity` has at least one
NoteEntity link whose entity matches the requested type, and every
requested (normalised) value is realised by a matching link's canonical
value — a superset, not merely an intersection. -/
theorem entity_filter_superset (dist : List ℚ → List ℚ → ℚ) (db : DBState)
    (q : List ℚ) (limit : Nat) (ty : String) (entity_values : List String)
    (hty : pyStripLower ty ≠ "")
    (hvals : normalizedEntityValues entity_values ≠ []) :
    ∀ r ∈ search_notes_by_similarity dist db q limit (some ty)
        entity_values,
      (∃ l ∈ linksOf db r.note.id, ∃ e,
        lookupEntity db l.entity_id = some e ∧
        pyStripLower e.entity_type = pyStripLower ty) ∧
      (∀ v ∈ normalizedEntityValues entity_values,
        ∃ l ∈ linksOf db r.note.id, ∃ e,
          lookupEntity db l.entity_id = some e ∧
          pyStripLower e.entity_type = pyStripLower ty ∧
          pyStripLower (pyOr e.canonical_value e.value) = v) := by
  intro r hr
  rw [search_notes_by_similarity] at hr
  split at hr
  · simp at hr
  · obtain ⟨_, hpass⟩ := mem_collectResults hr
    rw [notePassesEntityFilter] at hpass
    simp only [Option.getD_some] at hpass
    rw [if_neg hty] at hpass
    set links := (linksOf db r.note.id).filter (fun l =>
      match lookupEntity db l.entity_id with
      | some e => pyStripLower e.entity_type == pyStripLower ty
      | none => false) with hlinks
    by_cases hle : links = []
    · rw [if_pos hle] at hpass
      exact absurd hpass (by simp)
    · rw [if_neg hle] at hpass
      rw [if_neg (by simpa [normalizedEntityValues] using hvals)] at hpass
      have hlinkprop : ∀ l ∈ links, l ∈ linksOf db r.note.id ∧ ∃ e,
          lookupEntity db l.entity_id = some e ∧
          pyStripLower e.entity_type = pyStripLower ty := by
        intro l hl
        rw [hlinks] at hl
        obtain ⟨hl1, hl2⟩ := List.mem_filter.mp hl
        refine ⟨hl1, ?_⟩
        cases hent : lookupEntity db l.entity_id with
        | none => rw [hent] at hl2; simp at hl2
        | some e =>
          rw [hent] at hl2
          exact ⟨e, rfl, by simpa using hl2⟩
      constructor
      · obtain ⟨l, hl⟩ := List.exists_mem_of_ne_nil links hle
        obtain ⟨hl1, e, he1, he2⟩ := hlinkprop l hl
        exact ⟨l, hl1, e, he1, he2⟩
      · intro v hv
        have hall := List.all_eq_true.mp hpass v
          (by simpa [normalizedEntityValues] using hv)
        have hvmem : v ∈ links.map (fun l =>
            match lookupEntity db l.entity_id with
            | some e => pyStripLower (pyOr e.canonical_value e.value)
            | none => "") := by
          simpa using hall
        obtain ⟨l, hl, hlv⟩ := List.mem_map.mp hvmem
        obtain ⟨hl1, e, he1, he2⟩ := hlinkprop l hl
        refine ⟨l, hl1, e, he1, he2, ?_⟩
        rw [he1] at hlv
        simpa using hlv

def c5Entity : Entity :=
  { id := 10, entity_type := "app", value := "Knox",
    canonical_value := some "knox" }

def c5Note : Note :=
  { id := 0, title := "t", content := "c", summary := "", author := "a",
    status := "published", created_at := 0, updated_at := 0 }

def c5DB : DBState :=
  { notes := [c5Note], embeddings := [(0, [1])], relations := [],
    entities := [c5Entity],
    noteEntities := [{ note_id := 0, entity_id := 10, role := none }] }

/-- Witness for C5: filter type `app`, values `["knox"]`, on a database
with one published note linked to the `app`-entity `knox`. -/
theorem entity_filter_superset_witness :
    (∃ l ∈ linksOf c5DB c5Note.id, ∃ e,
      lookupEntity c5DB l.entity_id = some e ∧
      pyStripLower e.entity_type = pyStripLower "app") ∧
    (∀ v ∈ normalizedEntityValues ["knox"],
      ∃ l ∈ linksOf c5DB c5Note.id, ∃ e,
        lookupEntity c5DB l.entity_id = some e ∧
        pyStripLower e.entity_type = pyStripLower "app" ∧
        pyStripLower (pyOr e.canonical_value e.value) = v) := by
  have h : (⟨c5Note, 1⟩ : NoteSearchResult) ∈
      search_notes_by_similarity (fun _ _ => 0) c5DB [1] 5 (some "app")
        ["knox"] := by
    norm_num +decide [search_notes_by_similarity, searchCandidateRows,
      collectResults, notePassesEntityFilter, normalizedEntityValues,
      lookupEmbedding, lookupEntity, linksOf, c5DB, c5Note, c5Entity,
      pyStripLower, pyStrip, pyLower, pyOr, isPyWhitespace,
      List.insertionSort, List.find?, List.dropWhile_cons, List.dropWhile_nil]
  exact entity_filter_superset (fun _ _ => 0) c5DB [1] 5 "app" ["knox"]
    (by decide) (by decide) ⟨c5Note, 1⟩ h

/-! ## Claim C1 (counterexample part: the current search has no
supersession filter) -/

def c1NoteN : Note :=
  { id := 0, title := "old", content := "c", summary := "", author := "a",
    status := "published", created_at := 0, updated_at := 0 }

def c1NoteX : Note :=
  { id := 1, title := "new", content := "c", summary := "", author := "a",
    status := "published", created_at := 1, updated_at := 1 }

def c1Rel : NoteRelation :=
  { id := 100, source_note_id := 1, target_note_id := 0,
    relation_type := "supersedes", confidence := none }

def c1DB : DBState :=
  { notes := [c1NoteN, c1NoteX], embeddings := [(0, [1])],
    relations := [c1Rel], entities := [], noteEntities := [] }

/-- Counterexample to C1 as stated: the relation
`(c1NoteX, c1NoteN, supersedes)` exists and `c1NoteN` is published, yet
`c1NoteN` is returned by `search_notes_by_similarity` — the current
service filters only on status and never looks at supersession. -/
theorem supersession_exclusion_cx :
    c1Rel ∈ c1DB.relations ∧ c1Rel.relation_type = "supersedes" ∧
    c1Rel.target_note_id = c1NoteN.id ∧ c1NoteN.status = "published" ∧
    (search_notes_by_similarity (fun _ _ => 0) c1DB [1] 5 none []).map
      (fun r => r.note.id) = [c1NoteN.id] := by
  refine ⟨by simp [c1DB], rfl, rfl, rfl, ?_⟩
  norm_num [search_notes_by_similarity, searchCandidateRows,
    collectResults, notePassesEntityFilter, lookupEmbedding, c1DB, c1NoteN,
    c1NoteX, pyStripLower, pyStrip, pyLower, List.insertionSort,
    List.find?]

/-! ## Legacy similarity search (src/OLD/db-OLD.py, `search_similar_notes`)

The SQL layer: an anti-join excludes notes that are the target of any
`supersedes` relation, `lower(status) = 'published'` filters, an optional
semi-join applies the entity-id filter, results are ordered by ascending
cosine distance and limited to `top_k`.  The relation expansion then walks
one hop of the soft relation types.  The row multiplicity a SQL inner join
could introduce for notes with several matching NoteEntity links is not
modelled (the filter is a semi-join); no claim depends on it. -/

def SEARCH_RELATED_TYPES : List String := ["supports", "contradicts", "related"]

def hasInboundSupersedes (db : DBState) (nid : Nat) : Bool :=
  db.relations.any (fun r =>
    r.target_note_id == nid && r.relation_type == "supersedes")

/-- `dict.setdefault(k, d)` + in-place update, on an association list. -/
def assocUpsert {α β : Type} [BEq α] (m : List (α × β)) (k : α) (d : β)
    (f : β → β) : List (α × β) :=
  match m with
  | [] => [(k, f d)]
  | (k0, v) :: rest =>
    if k0 == k then (k0, f v) :: rest else (k0, v) :: assocUpsert rest k d f

/-- `_load_relations`: outbound relations of the given notes grouped as
`source id → relation type → sorted deduplicated target ids`, plus the
synthetic reverse entry `superseded_by` under each supersedes-target. -/
def load_relations (db : DBState) (ids : List Nat) :
    List (Nat × List (String × List Nat)) :=
  let rows := db.relations.filter (fun r => ids.contains r.source_note_id)
  let m := rows.foldl (fun m rel =>
    let m1 := assocUpsert m rel.source_note_id []
      (fun tm => assocUpsert tm rel.relation_type []
        (fun l => l ++ [rel.target_note_id]))
    if rel.relation_type == "supersedes" then
      assocUpsert m1 rel.target_note_id []
        (fun tm => assocUpsert tm "superseded_by" []
          (fun l => l ++ [rel.source_note_id]))
    else m1) []
  m.map (fun p => (p.1, p.2.map (fun q =>
    (q.1, List.insertionSort (fun a b => a ≤ b) q.2.dedup))))

/-- `relations_map.get(str(note.id), {})`. -/
def relationsMapOf (db : DBState) (ids : List Nat) (nid : Nat) :
    List (String × List Nat) :=
  (((load_relations db ids).find? (fun p => p.1 == nid)).map
    (fun p => p.2)).getD []

/-- The ranked SQL rows of `search_similar_notes`: eligible (not
superseded, published, entity semi-join) notes with their embeddings,
ordered by ascending distance to the query, first `top_k`. -/
def legacyRows (dist : List ℚ → List ℚ → ℚ) (db : DBState)
    (query_vector : List ℚ) (entity_filter_ids : List Nat) (top_k : Nat) :
    List (Note × List ℚ) :=
  let joined := db.notes.filterMap (fun n =>
    (lookupEmbedding db n.id).map (fun e => (n, e)))
  let eligible := joined.filter (fun p =>
    !hasInboundSupersedes db p.1.id && pyLower p.1.status == "published" &&
    (entity_filter_ids.isEmpty ||
      db.noteEntities.any (fun l =>
        l.note_id == p.1.id && entity_filter_ids.contains l.entity_id)))
  (List.insertionSort
    (fun p q => dist p.2 query_vector ≤ dist q.2 query_vector)
    eligible).take top_k

structure SearchMatch where
  note : Note
  score : Option ℚ
  relation : Option String
  relations : List (String × List Nat)
deriving DecidableEq

def baseIdsOf (dist : List ℚ → List ℚ → ℚ) (db : DBState)
    (query_vector : List ℚ) (entity_filter_ids : List Nat) (top_k : Nat) :
    List Nat :=
  (legacyRows dist db query_vector entity_filter_ids top_k).map
    (fun p => p.1.id)

/-- The ranked half of the result: `score = _distance_to_score(distance)`,
`relation = None`, full relation map attached. -/
def primaryMatches (dist : List ℚ → List ℚ → ℚ) (db : DBState)
    (query_vector : List ℚ) (entity_filter_ids : List Nat) (top_k : Nat) :
    List SearchMatch :=
  (legacyRows dist db query_vector entity_filter_ids top_k).map (fun p =>
    { note := p.1,
      score := distance_to_score (some (dist p.2 query_vector)),
      relation := none,
      relations := relationsMapOf db
        (baseIdsOf dist db query_vector entity_filter_ids top_k) p.1.id })

/-- The flattened iteration `for row in notes_map.values(): for rel in
row.outbound_relations:` over the seed notes. -/
def seedOutboundStream (db : DBState) (base_ids : List Nat) :
    List NoteRelation :=
  (db.notes.filter (fun n => base_ids.contains n.id)).flatMap
    (fun n => db.relations.filter (fun r => r.source_note_id == n.id))

/-- The `related_ids` dict: ordered `(target id, relation type)` pairs,
soft relation types only, first relation type encountered wins. -/
def collectRelated (db : DBState) (base_ids : List Nat) :
    List (Nat × String) :=
  (seedOutboundStream db base_ids).foldl (fun acc rel =>
    if SEARCH_RELATED_TYPES.contains rel.relation_type &&
        !(acc.any (fun pr => pr.1 == rel.target_note_id)) then
      acc ++ [(rel.target_note_id, rel.relation_type)]
    else acc) []

/-- The expansion half of the result: targets capped at
`related_limit * len(base_ids)`, fetched notes tagged with the producing
relation type and `score = None`. -/
def expandedMatches (dist : List ℚ → List ℚ → ℚ) (db : DBState)
    (query_vector : List ℚ) (entity_filter_ids : List Nat)
    (top_k related_limit : Nat) : List SearchMatch :=
  let base_ids := baseIdsOf dist db query_vector entity_filter_ids top_k
  let related_pairs := collectRelated db base_ids
  let fetch_ids := (related_pairs.map (fun pr => pr.1)).take
    (related_limit * base_ids.length)
  related_pairs.filterMap (fun pr =>
    if fetch_ids.contains pr.1 then
      (lookupNote db pr.1).map (fun n =>
        { note := n, score := none, relation := some pr.2,
          relations := relationsMapOf db fetch_ids pr.1 })
    else none)

/-- `search_similar_notes(query_vector=, entity_filter_ids=, top_k=,
related_limit=)`. -/
def search_similar_notes (dist : List ℚ → List ℚ → ℚ) (db : DBState)
    (query_vector : List ℚ) (entity_filter_ids : List Nat)
    (top_k related_limit : Nat) : List SearchMatch :=
  if legacyRows dist db query_vector entity_filter_ids top_k = [] then []
  else
    primaryMatches dist db query_vector entity_filter_ids top_k ++
      expandedMatches dist db query_vector entity_filter_ids top_k
        related_limit

/-! ### Lemmas about the legacy search -/

theorem mem_legacyRows {dist db query_vector entity_filter_ids top_k}
    {p : Note × List ℚ}
    (hp : p ∈ legacyRows dist db query_vector entity_filter_ids top_k) :
    p.1 ∈ db.notes ∧ lookupEmbedding db p.1.id = some p.2 ∧
    hasInboundSupersedes db p.1.id = false ∧
    pyLower p.1.status = "published" := by
  rw [legacyRows] at hp
  have hp1 := List.mem_of_mem_take hp
  have hp2 := (List.perm_insertionSort _ _).subset hp1
  obtain ⟨hp3, hp4⟩ := List.mem_filter.mp hp2
  obtain ⟨n, hn, hne⟩ := List.mem_filterMap.mp hp3
  obtain ⟨e, he, hee⟩ := Option.map_eq_some'.mp hne
  subst hee
  simp only [Bool.and_eq_true, Bool.not_eq_true', beq_iff_eq] at hp4
  exact ⟨hn, he, hp4.1.1, hp4.1.2⟩

/-- The first soft-typed relation reaching `tid` in the iteration order
of the expansion loop. -/
def firstSoftRelTo (db : DBState) (base_ids : List Nat) (tid : Nat) :
    Option NoteRelation :=
  (seedOutboundStream db base_ids).find? (fun r =>
    SEARCH_RELATED_TYPES.contains r.relation_type &&
      r.target_note_id == tid)

theorem collectFold_mem_spec :
    ∀ (stream : List NoteRelation) (acc : List (Nat × String))
      (pr : Nat × String),
      pr ∈ stream.foldl (fun acc rel =>
        if SEARCH_RELATED_TYPES.contains rel.relation_type &&
            !(acc.any (fun q => q.1 == rel.target_note_id)) then
          acc ++ [(rel.target_note_id, rel.relation_type)]
        else acc) acc →
      pr ∈ acc ∨
      ((¬ ∃ q ∈ acc, q.1 = pr.1) ∧
        ∃ r, stream.find? (fun r =>
            SEARCH_RELATED_TYPES.contains r.relation_type &&
              r.target_note_id == pr.1) = some r ∧
          r.relation_type = pr.2 ∧ r.target_note_id = pr.1) := by
  intro stream
  induction stream with
  | nil => intro acc pr h; exact Or.inl h
  | cons rel rest ih =>
    intro acc pr h
    rw [List.foldl_cons] at h
    by_cases hc : (SEARCH_RELATED_TYPES.contains rel.relation_type &&
        !(acc.any (fun q => q.1 == rel.target_note_id))) = true
    · rw [if_pos hc] at h
      rw [Bool.and_eq_true] at hc
      obtain ⟨hsoft, hnew⟩ := hc
      rw [Bool.not_eq_true'] at hnew
      have hnew' : ∀ q ∈ acc, q.1 ≠ rel.target_note_id := by
        intro q hq
        have h1 := List.any_eq_false.mp hnew q hq
        simpa using h1
      rcases ih _ pr h with hmem | ⟨hnone, r, hfind, hr2, hr1⟩
      · rcases List.mem_append.mp hmem with hmem | hmem
        · exact Or.inl hmem
        · simp only [List.mem_singleton] at hmem
          subst hmem
          refine Or.inr ⟨?_, rel, ?_, rfl, rfl⟩
          · rintro ⟨q, hq, hq1⟩
            exact hnew' q hq hq1
          · refine List.find?_cons_of_pos _ ?_
            simpa using hsoft
      · have hne : pr.1 ≠ rel.target_note_id := by
          intro hpe
          exact hnone ⟨(rel.target_note_id, rel.relation_type),
            List.mem_append_right _ (List.mem_singleton_self _), hpe.symm⟩
        refine Or.inr ⟨?_, r, ?_, hr2, hr1⟩
        · rintro ⟨q, hq, hq1⟩
          exact hnone ⟨q, List.mem_append_left _ hq, hq1⟩
        · rw [List.find?_cons_of_neg _ (by simp [Ne.symm hne])]
          exact hfind
    · rw [if_neg hc] at h
      rcases ih _ pr h with hmem | ⟨hnone, r, hfind, hr2, hr1⟩
      · exact Or.inl hmem
      · refine Or.inr ⟨hnone, r, ?_, hr2, hr1⟩
        have hc' : SEARCH_RELATED_TYPES.contains rel.relation_type = false ∨
            ∃ q ∈ acc, q.1 = rel.target_note_id := by
          rw [Bool.not_eq_true, Bool.and_eq_false_iff] at hc
          rcases hc with h1 | h2
          · exact Or.inl h1
          · have h2' : acc.any (fun q => q.1 == rel.target_note_id) = true := by
              simpa using h2
            obtain ⟨q, hq, hq1⟩ := List.any_eq_true.mp h2'
            exact Or.inr ⟨q, hq, by simpa using hq1⟩
        rcases hc' with h1 | ⟨q, hq, hq1⟩
        · have h1' : rel.relation_type ∉ SEARCH_RELATED_TYPES := by
            simpa using h1
          rw [List.find?_cons_of_neg _ (by simp [h1'])]
          exact hfind
        · have hne : pr.1 ≠ rel.target_note_id := by
            intro hpe
            exact hnone ⟨q, hq, by rw [hq1, hpe]⟩
          rw [List.find?_cons_of_neg _ (by simp [Ne.symm hne])]
          exact hfind

theorem collectFold_keys_nodup :
    ∀ (stream : List NoteRelation) (acc : List (Nat × String)),
      (acc.map (fun q => q.1)).Nodup →
      ((stream.foldl (fun acc rel =>
        if SEARCH_RELATED_TYPES.contains rel.relation_type &&
            !(acc.any (fun q => q.1 == rel.target_note_id)) then
          acc ++ [(rel.target_note_id, rel.relation_type)]
        else acc) acc).map (fun q => q.1)).Nodup := by
  intro stream
  induction stream with
  | nil => intro acc h; exact h
  | cons rel rest ih =>
    intro acc h
    rw [List.foldl_cons]
    by_cases hc : (SEARCH_RELATED_TYPES.contains rel.relation_type &&
        !(acc.any (fun q => q.1 == rel.target_note_id))) = true
    · rw [if_pos hc]
      refine ih _ ?_
      rw [Bool.and_eq_true] at hc
      obtain ⟨_, hnew⟩ := hc
      rw [Bool.not_eq_true'] at hnew
      have hnew' : rel.target_note_id ∉ acc.map (fun q => q.1) := by
        intro hmem
        obtain ⟨q, hq, hq1⟩ := List.mem_map.mp hmem
        have h3 := List.any_eq_false.mp hnew q hq
        have h4 : ¬q.1 = rel.target_note_id := by simpa using h3
        exact h4 hq1
      rw [List.map_append]
      refine List.Nodup.append h (by simp) ?_
      intro a ha hb
      simp only [List.map_cons, List.map_nil, List.mem_singleton] at hb
      subst hb
      exact hnew' ha
    · rw [if_neg hc]
      exact ih _ h

theorem collectRelated_keys_nodup (db : DBState) (base_ids : List Nat) :
    ((collectRelated db base_ids).map (fun q => q.1)).Nodup :=
  collectFold_keys_nodup _ [] (by simp)

theorem expansion_filterMap_ids (db : DBState) :
    ∀ (pairs : List (Nat × String)) (fetch_ids : List Nat)
      (rm : Nat → List (String × List Nat)),
      ((pairs.filterMap (fun pr =>
        if fetch_ids.contains pr.1 then
          (lookupNote db pr.1).map (fun n =>
            { note := n, score := none, relation := some pr.2,
              relations := rm pr.1 : SearchMatch })
        else none)).map (fun m => m.note.id)) =
      (pairs.filter (fun pr =>
        fetch_ids.contains pr.1 && (lookupNote db pr.1).isSome)).map
        (fun pr => pr.1) := by
  intro pairs
  induction pairs with
  | nil => intro fetch_ids rm; simp
  | cons pr rest ih =>
    intro fetch_ids rm
    rw [List.filterMap_cons, List.filter_cons]
    by_cases hc : fetch_ids.contains pr.1 = true
    · have hc' : pr.1 ∈ fetch_ids := by simpa using hc
      rw [if_pos hc]
      cases hn : lookupNote db pr.1 with
      | none =>
        simp only [Option.map_none', hn]
        rw [if_neg (by simp [hc', hn])]
        exact ih fetch_ids rm
      | some n =>
        have hid : n.id = pr.1 := by
          have := List.find?_some hn
          simpa using this
        rw [if_pos (by simp [hc', hn])]
        simp only [hn, Option.map_some', List.map_cons]
        rw [ih fetch_ids rm]
        simp [hid]
    · have hc' : pr.1 ∉ fetch_ids := by simpa using hc
      rw [if_neg hc, if_neg (by simp [hc'])]
      exact ih fetch_ids rm

/-- C1 (amended): the legacy `search_similar_notes` excludes every note
that is the target of a `supersedes` relation from its ranked (primary)
matches, whatever its status or score; the current
`search_notes_by_similarity` only guarantees `status = "published"` — it
has no supersession filter (see the counterexample). -/
theorem supersession_exclusion (dist : List ℚ → List ℚ → ℚ) (db : DBState)
    (q : List ℚ) (entity_filter_ids : List Nat) (top_k related_limit : Nat)
    (dist2 : List ℚ → List ℚ → ℚ) (db2 : DBState) (q2 : List ℚ)
    (limit : Nat) (entity_type : Option String)
    (entity_values : List String) :
    (∀ r ∈ db.relations, r.relation_type = "supersedes" →
      ∀ m ∈ primaryMatches dist db q entity_filter_ids top_k,
        m.note.id ≠ r.target_note_id) ∧
    (∀ m ∈ primaryMatches dist db q entity_filter_ids top_k,
      pyLower m.note.status = "published") ∧
    (∀ res ∈ search_notes_by_similarity dist2 db2 q2 limit entity_type
        entity_values, res.note.status = "published") ∧
    search_similar_notes dist db q entity_filter_ids top_k related_limit =
      (if legacyRows dist db q entity_filter_ids top_k = [] then []
       else primaryMatches dist db q entity_filter_ids top_k ++
         expandedMatches dist db q entity_filter_ids top_k
          related_limit) := by
  refine ⟨?_, ?_, ?_, rfl⟩
  · intro r hr hrt m hm heq
    obtain ⟨p, hp, hmp⟩ := List.mem_map.mp hm
    obtain ⟨_, _, hsup, _⟩ := mem_legacyRows hp
    have hmnote : m.note = p.1 := by rw [← hmp]
    have hany : db.relations.any (fun rr =>
        rr.target_note_id == p.1.id && rr.relation_type == "supersedes") =
        true := by
      refine List.any_eq_true.mpr ⟨r, hr, ?_⟩
      have htgt : r.target_note_id = p.1.id := by
        rw [← heq, hmnote]
      simp [htgt, hrt]
    rw [hasInboundSupersedes] at hsup
    rw [hsup] at hany
    exact absurd hany (by simp)
  · intro m hm
    obtain ⟨p, hp, hmp⟩ := List.mem_map.mp hm
    obtain ⟨_, _, _, hpub⟩ := mem_legacyRows hp
    subst hmp
    exact hpub
  · intro res hres
    rw [search_notes_by_similarity] at hres
    split at hres
    · simp at hres
    · obtain ⟨hrow, _⟩ := mem_collectResults hres
      exact (mem_searchCandidateRows hrow).2.1

def c1LegacyDB : DBState :=
  { notes := [c1NoteN, c1NoteX], embeddings := [(0, [1]), (1, [1])],
    relations := [c1Rel], entities := [], noteEntities := [] }

/-- Witness for C1 (amended): on a database where published note `0` is
superseded by note `1`, the legacy primary matches never contain note `0`,
and concretely consist of note `1` alone. -/
theorem supersession_exclusion_witness :
    (∀ m ∈ primaryMatches (fun _ _ => 0) c1LegacyDB [1] [] 5,
      m.note.id ≠ c1Rel.target_note_id) ∧
    (primaryMatches (fun _ _ => 0) c1LegacyDB [1] [] 5).map
      (fun m => m.note.id) = [c1NoteX.id] :=
  ⟨(supersession_exclusion (fun _ _ => 0) c1LegacyDB [1] [] 5 3
      (fun _ _ => 0) c1LegacyDB [1] 5 none []).1 c1Rel
      (by simp [c1LegacyDB]) rfl,
    by
      norm_num +decide [primaryMatches, legacyRows, baseIdsOf,
        lookupEmbedding, hasInboundSupersedes, relationsMapOf,
        load_relations, assocUpsert, distance_to_score, c1LegacyDB, c1NoteN,
        c1NoteX, c1Rel, pyLower, List.insertionSort, List.find?]⟩

/-- C6: every expanded match carries `score = None` and the relation type
of the first soft relation (in iteration order) that reaches its note from
the seed set; expanded note ids are pairwise distinct; and at most
`related_limit * |seed set|` targets are fetched. -/
theorem relation_expansion_semantics (dist : List ℚ → List ℚ → ℚ)
    (db : DBState) (q : List ℚ) (entity_filter_ids : List Nat)
    (top_k related_limit : Nat) :
    (∀ m ∈ expandedMatches dist db q entity_filter_ids top_k related_limit,
      m.score = none ∧
      ∃ r, firstSoftRelTo db (baseIdsOf dist db q entity_filter_ids top_k)
          m.note.id = some r ∧
        m.relation = some r.relation_type ∧
        r.relation_type ∈ SEARCH_RELATED_TYPES ∧ r ∈ db.relations ∧
        r.source_note_id ∈ baseIdsOf dist db q entity_filter_ids top_k ∧
        r.target_note_id = m.note.id) ∧
    ((expandedMatches dist db q entity_filter_ids top_k
      related_limit).map (fun m => m.note.id)).Nodup ∧
    (expandedMatches dist db q entity_filter_ids top_k related_limit).length
      ≤ related_limit * (baseIdsOf dist db q entity_filter_ids top_k).length
      ∧
    search_similar_notes dist db q entity_filter_ids top_k related_limit =
      (if legacyRows dist db q entity_filter_ids top_k = [] then []
       else primaryMatches dist db q entity_filter_ids top_k ++
         expandedMatches dist db q entity_filter_ids top_k
          related_limit) := by
  have hunf : expandedMatches dist db q entity_filter_ids top_k
      related_limit =
      (collectRelated db (baseIdsOf dist db q entity_filter_ids
        top_k)).filterMap (fun pr =>
        if (((collectRelated db (baseIdsOf dist db q entity_filter_ids
            top_k)).map (fun pr => pr.1)).take (related_limit *
            (baseIdsOf dist db q entity_filter_ids top_k).length)).contains
            pr.1 then
          (lookupNote db pr.1).map (fun n =>
            { note := n, score := none, relation := some pr.2,
              relations := relationsMapOf db
                (((collectRelated db (baseIdsOf dist db q entity_filter_ids
                  top_k)).map (fun pr => pr.1)).take (related_limit *
                  (baseIdsOf dist db q entity_filter_ids top_k).length))
                pr.1 })
        else none) := rfl
  have hids := expansion_filterMap_ids db
    (collectRelated db (baseIdsOf dist db q entity_filter_ids top_k))
    (((collectRelated db (baseIdsOf dist db q entity_filter_ids
      top_k)).map (fun pr => pr.1)).take (related_limit *
      (baseIdsOf dist db q entity_filter_ids top_k).length))
    (fun t => relationsMapOf db
      (((collectRelated db (baseIdsOf dist db q entity_filter_ids
        top_k)).map (fun pr => pr.1)).take (related_limit *
        (baseIdsOf dist db q entity_filter_ids top_k).length)) t)
  rw [← hunf] at hids
  refine ⟨?_, ?_, ?_, rfl⟩
  · intro m hm
    rw [hunf] at hm
    obtain ⟨pr, hpr, hf⟩ := List.mem_filterMap.mp hm
    split at hf
    · obtain ⟨n, hn, hnm⟩ := Option.map_eq_some'.mp hf
      have hid : n.id = pr.1 := by
        have := List.find?_some hn
        simpa using this
      have hscore : m.score = none := by rw [← hnm]
      have hrel : m.relation = some pr.2 := by rw [← hnm]
      have hmnote : m.note = n := by rw [← hnm]
      have hmid : m.note.id = pr.1 := by rw [hmnote, hid]
      refine ⟨hscore, ?_⟩
      rw [collectRelated] at hpr
      rcases collectFold_mem_spec _ [] pr hpr with hmem | ⟨_, r, hfind,
        hr2, hr1⟩
      · simp at hmem
      · refine ⟨r, ?_, by rw [hrel, hr2], ?_, ?_, ?_, ?_⟩
        · rw [firstSoftRelTo, hmid]
          exact hfind
        · have := List.find?_some hfind
          rw [Bool.and_eq_true] at this
          simpa using this.1
        · have hmem := List.mem_of_find?_eq_some hfind
          rw [seedOutboundStream] at hmem
          obtain ⟨n', _, hr⟩ := List.mem_flatMap.mp hmem
          exact (List.mem_filter.mp hr).1
        · have hmem := List.mem_of_find?_eq_some hfind
          rw [seedOutboundStream] at hmem
          obtain ⟨n', hn', hr⟩ := List.mem_flatMap.mp hmem
          obtain ⟨_, hbase⟩ := List.mem_filter.mp hn'
          have hsrc : r.source_note_id = n'.id := by
            simpa using (List.mem_filter.mp hr).2
          rw [hsrc]
          simpa using hbase
        · rw [hmid]; exact hr1
    · exact absurd hf (by simp)
  · rw [hids]
    refine List.Nodup.sublist ?_
      (collectRelated_keys_nodup db (baseIdsOf dist db q entity_filter_ids
        top_k))
    exact List.Sublist.map _ (List.filter_sublist _)
  · rw [← List.length_map (expandedMatches dist db q entity_filter_ids
      top_k related_limit) (fun m => m.note.id), hids]
    have hnodup : ((List.filter (fun pr =>
        (((collectRelated db (baseIdsOf dist db q entity_filter_ids
          top_k)).map (fun pr => pr.1)).take (related_limit *
          (baseIdsOf dist db q entity_filter_ids top_k).length)).contains
          pr.1 && (lookupNote db pr.1).isSome)
        (collectRelated db (baseIdsOf dist db q entity_filter_ids
          top_k))).map (fun pr => pr.1)).Nodup := by
      refine List.Nodup.sublist ?_
        (collectRelated_keys_nodup db (baseIdsOf dist db q entity_filter_ids
          top_k))
      exact List.Sublist.map _ (List.filter_sublist _)
    have hsub : ((collectRelated db (baseIdsOf dist db q entity_filter_ids
        top_k)).filter (fun pr =>
          (((collectRelated db (baseIdsOf dist db q entity_filter_ids
            top_k)).map (fun pr => pr.1)).take (related_limit *
            (baseIdsOf dist db q entity_filter_ids top_k).length)).contains
            pr.1 && (lookupNote db pr.1).isSome)).map (fun pr => pr.1) ⊆
        ((collectRelated db (baseIdsOf dist db q entity_filter_ids
          top_k)).map (fun pr => pr.1)).take (related_limit *
          (baseIdsOf dist db q entity_filter_ids top_k).length) := by
    -- subset: each filtered key passed the contains test
      intro x hx
      obtain ⟨pr, hpr, hx1⟩ := List.mem_map.mp hx
      obtain ⟨_, hcond⟩ := List.mem_filter.mp hpr
      rw [Bool.and_eq_true] at hcond
      rw [← hx1]
      simpa using hcond.1
    calc ((List.filter _ (collectRelated db (baseIdsOf dist db q
          entity_filter_ids top_k))).map (fun pr => pr.1)).length
        ≤ (((collectRelated db (baseIdsOf dist db q entity_filter_ids
            top_k)).map (fun pr => pr.1)).take (related_limit *
            (baseIdsOf dist db q entity_filter_ids top_k).length)).length :=
          (hnodup.subperm hsub).length_le
      _ ≤ related_limit *
            (baseIdsOf dist db q entity_filter_ids top_k).length :=
          List.length_take_le _ _

def c6NoteA : Note :=
  { id := 0, title := "seed", content := "c", summary := "", author := "a",
    status := "published", created_at := 0, updated_at := 0 }

def c6NoteB : Note :=
  { id := 1, title := "target", content := "c", summary := "",
    author := "a", status := "draft", created_at := 0, updated_at := 0 }

def c6Rel : NoteRelation :=
  { id := 200, source_note_id := 0, target_note_id := 1,
    relation_type := "related", confidence := none }

def c6DB : DBState :=
  { notes := [c6NoteA, c6NoteB], embeddings := [(0, [1])],
    relations := [c6Rel], entities := [], noteEntities := [] }

/-- Witness for C6: one seed note with a `related` edge to note `1`
produces exactly one expanded match with `score = None` and
`relation = "related"`. -/
theorem relation_expansion_semantics_witness :
    (SearchMatch.mk c6NoteB none (some "related") []).score = none ∧
    ∃ r, firstSoftRelTo c6DB (baseIdsOf (fun _ _ => 0) c6DB [1] [] 5)
        (SearchMatch.mk c6NoteB none (some "related") []).note.id = some r ∧
      (SearchMatch.mk c6NoteB none (some "related") []).relation =
        some r.relation_type ∧
      r.relation_type ∈ SEARCH_RELATED_TYPES ∧ r ∈ c6DB.relations ∧
      r.source_note_id ∈ baseIdsOf (fun _ _ => 0) c6DB [1] [] 5 ∧
      r.target_note_id =
        (SearchMatch.mk c6NoteB none (some "related") []).note.id :=
  (relation_expansion_semantics (fun _ _ => 0) c6DB [1] [] 5 3).1 _
    (by
      norm_num +decide [expandedMatches, baseIdsOf, legacyRows,
        collectRelated, seedOutboundStream, lookupEmbedding, lookupNote,
        hasInboundSupersedes, relationsMapOf, load_relations, assocUpsert,
        SEARCH_RELATED_TYPES, c6DB, c6NoteA, c6NoteB, c6Rel, pyLower,
        List.insertionSort, List.find?])

/-! ## Context assembly (`answer_from_context.format_doc`)

Two generations exist: `src/OLD/llm-OLD.py` lines 77-135 (full status state
machine) and `src/infrastructure/llm.py` lines 63-84 (reduced).  Relation
id fields arrive as comma-joined strings which `map_ids_to_refs` splits;
the metadata here carries the split result directly (a list of raw id
strings, possibly blank). -/

structure DocMetadata where
  status : String
  topic : String
  date : String
  tags : String
  summary : String
  supersedes : List String
  superseded_by : List String
  supports : List String
  contradicts : List String
  related : List String
  duplicates : List String
deriving DecidableEq

structure MatchDoc where
  id : String
  score : Option ℚ
  relation : Option String
  metadata : DocMetadata
deriving DecidableEq

/-- `id_to_num = {match.get("id"): str(index + 1) ...}` (note ids are
unique, so first-match lookup agrees with the Python dict). -/
def id_to_num (ms : List MatchDoc) : List (String × String) :=
  ms.enum.map (fun p => (p.2.id, toString (p.1 + 1)))

/-- `map_ids_to_refs`: skip blank ids, render `[n]` via the citation
lookup, `[?]` for ids outside the result set. -/
def map_ids_to_refs (idToNum : List (String × String))
    (ids : List String) : List String :=
  ids.filterMap (fun identifier =>
    if pyStrip identifier = "" then none
    else some ("[" ++
      (((idToNum.find? (fun p => p.1 == pyStrip identifier)).map
        (fun p => p.2)).getD "?") ++ "]"))

/-- The legacy status state machine (llm-OLD.py lines 84-89): `VERVANGEN`
when any `superseded_by` ref exists or the status is archived, else
`CONCEPT` for drafts, else `ACTUEEL`. -/
def legacyStatusLabel (superseded_by_refs : List String)
    (status_value : String) : String :=
  if superseded_by_refs ≠ [] ∨ status_value = "archived" then "VERVANGEN"
  else if status_value = "draft" then "CONCEPT"
  else "ACTUEEL"

/-- The current status logic (llm.py lines 70-76): `VEROUDERD` when any
`superseded_by` ref exists, else always `ACTUEEL`; the note status is
never consulted. -/
def currentStatusLabel (superseded_by_refs : List String) : String :=
  if superseded_by_refs ≠ [] then "VEROUDERD" else "ACTUEEL"

/-- `format_doc` of the current assembler (llm.py lines 63-84). -/
def currentFormatDoc (idToNum : List (String × String)) (idx : Nat)
    (m : MatchDoc) : String :=
  let supersedes := map_ids_to_refs idToNum m.metadata.supersedes
  let superseded_by := map_ids_to_refs idToNum m.metadata.superseded_by
  let status := currentStatusLabel superseded_by
  let notes :=
    (if supersedes ≠ [] then
      ["vervangt " ++ String.intercalate ", " supersedes] else []) ++
    (if superseded_by ≠ [] then
      ["vervangen door " ++ String.intercalate ", " superseded_by] else [])
  let notes_str := " (" ++ status ++
    (if notes ≠ [] then ", " ++ String.intercalate ", " notes else "") ++
    ")"
  "[" ++ toString (idx + 1) ++ "]" ++ notes_str ++ "\n" ++
  "Topic: " ++ m.metadata.topic ++ "\n" ++
  "Date: " ++ m.metadata.date ++ "\n" ++
  "Tags: " ++ m.metadata.tags ++ "\n" ++
  "Summary: " ++ m.metadata.summary

def relationTemplates : List (String × String) :=
  [("supersedes", "vervangt"), ("superseded_by", "vervangen door"),
   ("supports", "ondersteunt"), ("contradicts", "spreekt tegen"),
   ("related", "gerelateerd aan"), ("duplicates", "duplicaat van")]

def relationLabels : List (String × String) :=
  [("supports", "ondersteunt een andere bron"),
   ("contradicts", "spreekt andere bron(nen) tegen"),
   ("related", "is contextueel gerelateerd"),
   ("duplicates", "is een duplicaat van een andere bron")]

def metaField (m : DocMetadata) (key : String) : List String :=
  if key == "supersedes" then m.supersedes
  else if key == "superseded_by" then m.superseded_by
  else if key == "supports" then m.supports
  else if key == "contradicts" then m.contradicts
  else if key == "related" then m.related
  else m.duplicates

/-- The `annotations` list of the legacy `format_doc`: the status label
first, then the provenance of an expanded match, then one clause per
non-empty relation ref list in template order. -/
def legacyAnnotations (idToNum : List (String × String)) (m : MatchDoc) :
    List String :=
  let superseded_by := map_ids_to_refs idToNum m.metadata.superseded_by
  let status := legacyStatusLabel superseded_by (pyLower m.metadata.status)
  let relation_to_query := pyStrip (m.relation.getD "")
  [status] ++
  (if relation_to_query ≠ "" then
    ["toegevoegd via " ++
      (((relationLabels.find? (fun p => p.1 == relation_to_query)).map
        (fun p => p.2)).getD relation_to_query)]
   else []) ++
  relationTemplates.filterMap (fun kt =>
    let refs := map_ids_to_refs idToNum (metaField m.metadata kt.1)
    if refs ≠ [] then
      some (kt.2 ++ " " ++ String.intercalate ", " refs)
    else none)

/-- `format_doc` of the legacy assembler (llm-OLD.py lines 77-135); the
float formatting of the relevance score is external (`fmtScore`). -/
def legacyFormatDoc (fmtScore : ℚ → String)
    (idToNum : List (String × String)) (idx : Nat) (m : MatchDoc) :
    String :=
  let annotations := legacyAnnotations idToNum m
  let score_str :=
    match m.score with
    | some s => if 0 < s then "Relevantie: " ++ fmtScore s ++ "\n" else ""
    | none => ""
  let annotation_str :=
    if annotations ≠ [] then
      " (" ++ String.intercalate "; "
        ((annotations.filter (fun a => a ≠ "")).map pyStrip) ++ ")"
    else ""
  let topic := if m.metadata.topic = "" then "Onbekend onderwerp"
    else m.metadata.topic
  let tags_str := if m.metadata.tags ≠ "" then
    "Tags: " ++ m.metadata.tags ++ "\n" else ""
  let summary_str := if m.metadata.summary ≠ "" then
    "Samenvatting: " ++ m.metadata.summary else ""
  pyStrip ("[" ++ toString (idx + 1) ++ "] " ++ topic ++ annotation_str ++
    "\n" ++ "Datum: " ++ m.metadata.date ++ "\n" ++ score_str ++ tags_str
    ++ summary_str)

/-- The status state machine exactly as the claim words it, in its stated
precedence order: supersession, then archival, then draft, then the
default. -/
def specStatusLabel (hasSupersededBy : Bool) (status_value : String) :
    String :=
  if hasSupersededBy then "VERVANGEN"
  else if status_value = "archived" then "VERVANGEN"
  else if status_value = "draft" then "CONCEPT"
  else "ACTUEEL"

def c2Meta : DocMetadata :=
  { status := "archived", topic := "t", date := "", tags := "",
    summary := "", supersedes := [], superseded_by := [], supports := [],
    contradicts := [], related := [], duplicates := [] }

def c2Match : MatchDoc :=
  { id := "n1", score := none, relation := none, metadata := c2Meta }

/-- Counterexample to C2 as stated: the current assembler labels an
archived note with no `superseded_by` entries `ACTUEEL`, not `VERVANGEN`
(and it says `VEROUDERD`, never `VERVANGEN`, for superseded notes). -/
theorem context_status_label_cx :
    c2Match.metadata.status = "archived" ∧
    map_ids_to_refs (id_to_num [c2Match]) c2Match.metadata.superseded_by
      = [] ∧
    currentStatusLabel (map_ids_to_refs (id_to_num [c2Match])
      c2Match.metadata.superseded_by) = "ACTUEEL" ∧
    currentFormatDoc (id_to_num [c2Match]) 0 c2Match =
      "[1] (ACTUEEL)\nTopic: t\nDate: \nTags: \nSummary: " ∧
    ("ACTUEEL" : String) ≠ "VERVANGEN" ∧
    currentStatusLabel (map_ids_to_refs (id_to_num [c2Match]) ["n1"]) =
      "VEROUDERD" := by
  refine ⟨rfl, rfl, rfl, ?_, by decide, ?_⟩
  · rfl
  · rfl

/-- C2 (amended): the legacy assembler derives the status label by exactly
the claimed precedence (supersession or archival, then draft, then
current), and it heads the annotation list of every rendered entry; the
current assembler instead labels `VEROUDERD` when `superseded_by` refs
exist and `ACTUEEL` otherwise, and its rendered entry is entirely
independent of the note's status. -/
theorem context_status_precedence :
    (∀ refs sv, legacyStatusLabel refs sv =
      specStatusLabel (!refs.isEmpty) sv) ∧
    (∀ refs sv, refs ≠ [] → legacyStatusLabel refs sv = "VERVANGEN") ∧
    (∀ refs, legacyStatusLabel refs "archived" = "VERVANGEN") ∧
    (∀ sv, sv = "draft" → legacyStatusLabel [] sv = "CONCEPT") ∧
    (∀ sv, sv ≠ "archived" → sv ≠ "draft" →
      legacyStatusLabel [] sv = "ACTUEEL") ∧
    (∀ idToNum m, (legacyAnnotations idToNum m).head? =
      some (legacyStatusLabel
        (map_ids_to_refs idToNum m.metadata.superseded_by)
        (pyLower m.metadata.status))) ∧
    (∀ refs, currentStatusLabel refs =
      if refs = [] then "ACTUEEL" else "VEROUDERD") ∧
    (∀ idToNum idx m st, currentFormatDoc idToNum idx m =
      currentFormatDoc idToNum idx
        ⟨m.id, m.score, m.relation,
          { m.metadata with status := st }⟩) := by
  refine ⟨?_, ?_, ?_, ?_, ?_, ?_, ?_, ?_⟩
  · intro refs sv
    rw [legacyStatusLabel, specStatusLabel]
    by_cases h1 : refs = []
    · subst h1
      simp
    · have h2 : refs.isEmpty = false := by
        cases refs
        · exact absurd rfl h1
        · rfl
      simp [h1, h2]
  · intro refs sv h
    rw [legacyStatusLabel, if_pos (Or.inl h)]
  · intro refs
    rw [legacyStatusLabel, if_pos (Or.inr rfl)]
  · intro sv h
    subst h
    rfl
  · intro sv h1 h2
    rw [legacyStatusLabel, if_neg (by simp [h1]), if_neg h2]
  · intro idToNum m
    rfl
  · intro refs
    rw [currentStatusLabel]
    by_cases h : refs = []
    · simp [h]
    · simp [h]
  · intro idToNum idx m st
    rfl

/-- Witness for C2 (amended): draft status with a superseded_by entry is
`VERVANGEN` (supersession beats draft), archived with none is
`VERVANGEN`. -/
theorem context_status_precedence_witness :
    legacyStatusLabel ["[1]"] "draft" = "VERVANGEN" ∧
    legacyStatusLabel [] "archived" = "VERVANGEN" ∧
    legacyStatusLabel [] "draft" = "CONCEPT" ∧
    legacyStatusLabel [] "published" = "ACTUEEL" :=
  ⟨context_status_precedence.2.1 ["[1]"] "draft" (by decide),
    context_status_precedence.2.2.1 [],
    context_status_precedence.2.2.2.1 "draft" rfl,
    context_status_precedence.2.2.2.2.1 "published" (by decide)
      (by decide)⟩

/-! ## Mutations

The SQLAlchemy sessions commit on exit and roll back on a constraint
violation; the transaction wrapper itself (the old `core.config`
`get_session` context manager) is not in the sources, so, modelled from
the spec: mutation operations fail atomically — an operation either
returns the fully-updated state (`.ok`) or fails (`.error`) and the caller
keeps the unchanged state.  Constraint checks mirror the table constraints
of src/models/relation_model.py and src/OLD/db-OLD.py
(`uq_relation_pair` / `uq_note_relation` on the ordered pair,
`check_no_self_relation` / `ck_note_relation_no_self`, note foreign
keys). -/

def exceptOk {ε α : Type} : Except ε α → Bool
  | .ok _ => true
  | .error _ => false

/-- `create_relation` (src/services/relation_service.py lines 51-68):
plain insert + commit, validity enforced by the schema constraints.
The row's uuid4 primary key is passed in as `relId`. -/
def create_relation (db : DBState) (relId : Nat)
    (source_note_id target_note_id : Nat) (relation_type : String)
    (confidence : Option ℚ) : Except String DBState :=
  if source_note_id = target_note_id then
    .error "check_no_self_relation"
  else if db.relations.any (fun r =>
      r.source_note_id == source_note_id &&
      r.target_note_id == target_note_id) then
    .error "uq_relation_pair"
  else if db.notes.any (fun n => n.id == source_note_id) = false then
    .error "fk_source_note_id"
  else if db.notes.any (fun n => n.id == target_note_id) = false then
    .error "fk_target_note_id"
  else
    .ok { db with relations := db.relations ++
      [{ id := relId, source_note_id := source_note_id,
         target_note_id := target_note_id,
         relation_type := relation_type, confidence := confidence }] }

/-- What the caller's session holds after the attempt: the new state on
success, the unchanged state after a rollback. -/
def runCreateRelation (db : DBState) (relId : Nat)
    (source_note_id target_note_id : Nat) (relation_type : String)
    (confidence : Option ℚ) : DBState :=
  match create_relation db relId source_note_id target_note_id
      relation_type confidence with
  | .ok db' => db'
  | .error _ => db

/-- C8: creating a self-relation `(A, A, t)` fails; creating a relation on
an ordered pair `(A, B)` a second time fails whatever the types, and the
failed attempt leaves the stored relation set unchanged. -/
theorem relation_constraints (db : DBState) (rid rid2 rid3 : Nat)
    (A B : Nat) (t t2 t3 : String) (c c2 c3 : Option ℚ)
    (hA : A ∈ db.notes.map (fun n => n.id))
    (hB : B ∈ db.notes.map (fun n => n.id)) (hAB : A ≠ B)
    (hfresh : ∀ r ∈ db.relations,
      ¬(r.source_note_id = A ∧ r.target_note_id = B)) :
    exceptOk (create_relation db rid A A t c) = false ∧
    ∃ db1, create_relation db rid2 A B t2 c2 = .ok db1 ∧
      db1.relations = db.relations ++
        [{ id := rid2, source_note_id := A, target_note_id := B,
           relation_type := t2, confidence := c2 }] ∧
      exceptOk (create_relation db1 rid3 A B t3 c3) = false ∧
      runCreateRelation db1 rid3 A B t3 c3 = db1 := by
  have hAnotes : db.notes.any (fun n => n.id == A) = true := by
    obtain ⟨n, hn, hid⟩ := List.mem_map.mp hA
    exact List.any_eq_true.mpr ⟨n, hn, by simp [hid]⟩
  have hBnotes : db.notes.any (fun n => n.id == B) = true := by
    obtain ⟨n, hn, hid⟩ := List.mem_map.mp hB
    exact List.any_eq_true.mpr ⟨n, hn, by simp [hid]⟩
  have hdup : db.relations.any (fun r =>
      r.source_note_id == A && r.target_note_id == B) = false := by
    rw [List.any_eq_false]
    intro r hr
    intro hcontra
    rw [Bool.and_eq_true] at hcontra
    exact hfresh r hr ⟨by simpa using hcontra.1, by simpa using hcontra.2⟩
  constructor
  · rw [create_relation, if_pos rfl]
    rfl
  · have hok : create_relation db rid2 A B t2 c2 = .ok { db with
        relations := db.relations ++
          [{ id := rid2, source_note_id := A, target_note_id := B,
             relation_type := t2, confidence := c2 }] } := by
      rw [create_relation, if_neg hAB, if_neg (by simp [hdup]),
        if_neg (by simp [hAnotes]), if_neg (by simp [hBnotes])]
    have herr : create_relation { db with
        relations := db.relations ++
          [{ id := rid2, source_note_id := A, target_note_id := B,
             relation_type := t2, confidence := c2 }] } rid3 A B t3 c3 =
        .error "uq_relation_pair" := by
      rw [create_relation, if_neg hAB]
      rw [if_pos ?hcond]
      case hcond =>
        refine List.any_eq_true.mpr ⟨_, List.mem_append_right _
          (List.mem_singleton_self _), ?_⟩
        simp
    refine ⟨_, hok, rfl, ?_, ?_⟩
    · rw [herr]
      rfl
    · rw [runCreateRelation, herr]

def c8NoteA : Note :=
  { id := 0, title := "a", content := "c", summary := "", author := "a",
    status := "published", created_at := 0, updated_at := 0 }

def c8NoteB : Note :=
  { id := 1, title := "b", content := "c", summary := "", author := "a",
    status := "published", created_at := 0, updated_at := 0 }

def c8DB : DBState :=
  { notes := [c8NoteA, c8NoteB], embeddings := [], relations := [],
    entities := [], noteEntities := [] }

/-- Witness for C8 on a two-note database. -/
theorem relation_constraints_witness :
    exceptOk (create_relation c8DB 300 0 0 "related" none) = false ∧
    ∃ db1, create_relation c8DB 301 0 1 "related" none = .ok db1 ∧
      db1.relations = c8DB.relations ++
        [{ id := 301, source_note_id := 0, target_note_id := 1,
           relation_type := "related", confidence := none }] ∧
      exceptOk (create_relation db1 302 0 1 "supports" none) = false ∧
      runCreateRelation db1 302 0 1 "supports" none = db1 :=
  relation_constraints c8DB 300 301 302 0 1 "related" "related" "supports"
    none none none (by decide) (by decide) (by decide) (by simp [c8DB])

/-! ## Legacy `create_note` (src/OLD/db-OLD.py lines 449-519)

The embedding covers the note row, its embedding, the entity links and the
relation loop with the supersedes-triggered archival cascade; the tag
attachment (`_ensure_tags`) touches only the tag tables, which no claim
concerns, and is omitted.  The uuid4 primary key of each relation row is
not modelled (`id := 0`); `confidence = 1.0` as in the source. -/

/-- One iteration of the `for relation_type, target_id in relations:`
loop: append the relation row and, for `supersedes`, archive the target
(`status = "archived"`, `updated_at = now`). -/
def applyCreateRel (noteId now : Nat) (st : DBState) (rt : String)
    (t : Nat) : Except String DBState :=
  if noteId = t then .error "ck_note_relation_no_self"
  else if st.relations.any (fun r =>
      r.source_note_id == noteId && r.target_note_id == t) then
    .error "uq_note_relation"
  else if st.notes.any (fun n => n.id == t) = false then
    .error "fk_target_note_id"
  else
    let st1 := { st with relations := st.relations ++
      [{ id := 0, source_note_id := noteId, target_note_id := t,
         relation_type := rt, confidence := some 1 }] }
    if rt == "supersedes" then
      .ok { st1 with notes := st1.notes.map (fun n =>
        if n.id = t then { n with status := "archived", updated_at := now }
        else n) }
    else .ok st1

def applyCreateRels (noteId now : Nat) :
    DBState → List (String × Nat) → Except String DBState
  | st, [] => .ok st
  | st, (rt, t) :: rest =>
    match applyCreateRel noteId now st rt t with
    | .error e => .error e
    | .ok st1 => applyCreateRels noteId now st1 rest

/-- `create_note` of src/OLD/db-OLD.py: insert the note with `created_at =
updated_at = now`, its embedding, the entity links, then the relations
with the supersedes cascade — all in one transaction. -/
def create_note (db : DBState) (noteId now : Nat)
    (title content author_id status summary : String)
    (embedding : List ℚ) (entity_ids : List Nat)
    (relations : List (String × Nat)) : Except String DBState :=
  if db.notes.any (fun n => n.id == noteId) then .error "pk_notes"
  else
    let note : Note :=
      { id := noteId, title := title, content := content,
        summary := summary, author := author_id, status := status,
        created_at := now, updated_at := now }
    let db1 : DBState := { db with
      notes := db.notes ++ [note],
      embeddings := db.embeddings ++ [(noteId, embedding)],
      noteEntities := db.noteEntities ++
        ((db.entities.filter (fun e => entity_ids.contains e.id)).map
          (fun e =>
            { note_id := noteId, entity_id := e.id, role := none })) }
    applyCreateRels noteId now db1 relations

def runCreateNote (db : DBState) (noteId now : Nat)
    (title content author_id status summary : String)
    (embedding : List ℚ) (entity_ids : List Nat)
    (relations : List (String × Nat)) : DBState :=
  match create_note db noteId now title content author_id status summary
      embedding entity_ids relations with
  | .ok db' => db'
  | .error _ => db

theorem applyCreateRels_spec (noteId now : Nat) :
    ∀ (rels : List (String × Nat)) (st db' : DBState),
      applyCreateRels noteId now st rels = .ok db' →
      (∀ r ∈ st.relations, r ∈ db'.relations) ∧
      (∀ n ∈ st.notes, n.id = noteId → n ∈ db'.notes) ∧
      (∀ t, (∀ n ∈ st.notes, n.id = t →
          n.status = "archived" ∧ n.updated_at = now) →
        (∀ n ∈ db'.notes, n.id = t →
          n.status = "archived" ∧ n.updated_at = now)) ∧
      (∀ t, ("supersedes", t) ∈ rels →
        (∃ r ∈ db'.relations, r.source_note_id = noteId ∧
          r.target_note_id = t ∧ r.relation_type = "supersedes") ∧
        (∀ n ∈ db'.notes, n.id = t →
          n.status = "archived" ∧ n.updated_at = now)) := by
  intro rels
  induction rels with
  | nil =>
    intro st db' h
    rw [applyCreateRels] at h
    injection h with h
    subst h
    exact ⟨fun r hr => hr, fun n hn _ => hn, fun t ht => ht,
      fun t ht => absurd ht (by simp)⟩
  | cons p rest ih =>
    intro st db' h
    obtain ⟨rt, t0⟩ := p
    rw [applyCreateRels] at h
    cases hstep : applyCreateRel noteId now st rt t0 with
    | error e => rw [hstep] at h; exact absurd h (by simp)
    | ok st1 =>
      rw [hstep] at h
      obtain ⟨ihA, ihB, ihC, ihD⟩ := ih st1 db' h
      -- facts about the single step
      rw [applyCreateRel] at hstep
      by_cases hself : noteId = t0
      · rw [if_pos hself] at hstep; exact absurd hstep (by simp)
      · rw [if_neg hself] at hstep
        by_cases hdup : st.relations.any (fun r =>
            r.source_note_id == noteId && r.target_note_id == t0) = true
        · rw [if_pos hdup] at hstep; exact absurd hstep (by simp)
        · rw [if_neg hdup] at hstep
          by_cases hfk : st.notes.any (fun n => n.id == t0) = false
          · rw [if_pos hfk] at hstep; exact absurd hstep (by simp)
          · rw [if_neg hfk] at hstep
            by_cases hsup : (rt == "supersedes") = true
            · rw [if_pos hsup] at hstep
              injection hstep with hstep
              have hrels1 : st1.relations = st.relations ++
                  [{ id := 0, source_note_id := noteId,
                     target_note_id := t0, relation_type := rt,
                     confidence := some 1 }] := by rw [← hstep]
              have hnotes1 : st1.notes = st.notes.map (fun n =>
                  if n.id = t0 then
                    { n with status := "archived", updated_at := now }
                  else n) := by rw [← hstep]
              have harchived : ∀ n ∈ st1.notes, n.id = t0 →
                  n.status = "archived" ∧ n.updated_at = now := by
                rw [hnotes1]
                intro n hn hid
                obtain ⟨n0, _, hmap⟩ := List.mem_map.mp hn
                by_cases h0 : n0.id = t0
                · rw [if_pos h0] at hmap
                  rw [← hmap]
                  exact ⟨rfl, rfl⟩
                · rw [if_neg h0] at hmap
                  rw [← hmap] at hid
                  exact absurd hid h0
              refine ⟨?_, ?_, ?_, ?_⟩
              · intro r hr
                exact ihA r (by rw [hrels1]; exact List.mem_append_left _ hr)
              · intro n hn hid
                refine ihB n ?_ hid
                rw [hnotes1]
                have : (if n.id = t0 then
                    { n with status := "archived", updated_at := now }
                  else n) = n := by
                  rw [if_neg (by rw [hid]; exact hself)]
                rw [← this]
                exact List.mem_map_of_mem _ hn
              · intro t ht
                refine ihC t ?_
                rw [hnotes1]
                intro n hn hid
                obtain ⟨n0, hn0, hmap⟩ := List.mem_map.mp hn
                by_cases h0 : n0.id = t0
                · rw [if_pos h0] at hmap
                  rw [← hmap] at hid ⊢
                  simp only at hid
                  exact ⟨rfl, rfl⟩
                · rw [if_neg h0] at hmap
                  rw [← hmap] at hid ⊢
                  exact ht n0 hn0 hid
              · intro t ht
                rcases List.mem_cons.mp ht with hh | hh
                · have hrt : rt = "supersedes" := by
                    have := congrArg Prod.fst hh
                    simp at this
                    exact this.symm
                  have htt : t = t0 := by
                    have := congrArg Prod.snd hh
                    simpa using this
                  subst htt
                  constructor
                  · have hmem0 : NoteRelation.mk 0 noteId t rt (some 1) ∈
                        db'.relations := by
                      refine ihA _ ?_
                      rw [hrels1]
                      exact List.mem_append_right _
                        (List.mem_singleton_self _)
                    exact ⟨_, hmem0, rfl, rfl, hrt⟩
                  · exact ihC t harchived
                · exact ihD t hh
            · rw [if_neg hsup] at hstep
              injection hstep with hstep
              have hrels1 : st1.relations = st.relations ++
                  [{ id := 0, source_note_id := noteId,
                     target_note_id := t0, relation_type := rt,
                     confidence := some 1 }] := by rw [← hstep]
              have hnotes1 : st1.notes = st.notes := by rw [← hstep]
              refine ⟨?_, ?_, ?_, ?_⟩
              · intro r hr
                exact ihA r (by rw [hrels1]; exact List.mem_append_left _ hr)
              · intro n hn hid
                exact ihB n (by rw [hnotes1]; exact hn) hid
              · intro t ht
                refine ihC t ?_
                rw [hnotes1]
                exact ht
              · intro t ht
                rcases List.mem_cons.mp ht with hh | hh
                · exfalso
                  have hrt : rt = "supersedes" := by
                    have := congrArg Prod.fst hh
                    simp at this
                    exact this.symm
                  rw [hrt] at hsup
                  simp at hsup
                · exact ihD t hh

/-- C7: creating a note with `supersedes` relations commits, in one
transaction, the new note, the relation rows, and the cascading archival
(`status = "archived"`, `updated_at = now`) of every supersedes-target;
on failure nothing is committed and the caller keeps the old state. -/
theorem supersedes_cascade (db : DBState) (noteId now : Nat)
    (title content author_id status summary : String) (embedding : List ℚ)
    (entity_ids : List Nat) (relations : List (String × Nat)) :
    (∀ db', create_note db noteId now title content author_id status
        summary embedding entity_ids relations = .ok db' →
      (∃ n ∈ db'.notes, n.id = noteId ∧ n.status = status ∧
        n.created_at = now ∧ n.updated_at = now) ∧
      ∀ t, ("supersedes", t) ∈ relations →
        (∃ r ∈ db'.relations, r.source_note_id = noteId ∧
          r.target_note_id = t ∧ r.relation_type = "supersedes") ∧
        (∀ n ∈ db'.notes, n.id = t →
          n.status = "archived" ∧ n.updated_at = now)) ∧
    (∀ e, create_note db noteId now title content author_id status summary
        embedding entity_ids relations = .error e →
      runCreateNote db noteId now title content author_id status summary
        embedding entity_ids relations = db) := by
  constructor
  · intro db' h
    rw [create_note] at h
    by_cases hpk : db.notes.any (fun n => n.id == noteId) = true
    · rw [if_pos hpk] at h
      exact absurd h (by simp)
    · rw [if_neg hpk] at h
      obtain ⟨_, hB, _, hD⟩ :=
        applyCreateRels_spec noteId now relations _ db' h
      constructor
      · refine ⟨Note.mk noteId title content summary author_id status now
          now, hB _ ?_ rfl, rfl, rfl, rfl, rfl⟩
        exact List.mem_append_right _ (List.mem_singleton_self _)
      · exact hD
  · intro e he
    simp [runCreateNote, he]

def c7Target : Note := Note.mk 5 "target" "c" "" "a" "published" 0 0

def c7DB : DBState :=
  { notes := [c7Target], embeddings := [], relations := [],
    entities := [], noteEntities := [] }

def c7After : DBState :=
  { notes := [Note.mk 5 "target" "c" "" "a" "archived" 0 7,
      Note.mk 9 "t" "c" "" "auth" "draft" 7 7],
    embeddings := [(9, [1])],
    relations := [NoteRelation.mk 0 9 5 "supersedes" (some 1)],
    entities := [], noteEntities := [] }

/-- Witness for C7: creating note `9` with `supersedes → 5` archives note
`5` with `updated_at = 7` in the committed state. -/
theorem supersedes_cascade_witness :
    create_note c7DB 9 7 "t" "c" "auth" "draft" "" [1] []
      [("supersedes", 5)] = .ok c7After ∧
    ((∃ r ∈ c7After.relations, r.source_note_id = 9 ∧
      r.target_note_id = 5 ∧ r.relation_type = "supersedes") ∧
     (∀ n ∈ c7After.notes, n.id = 5 →
      n.status = "archived" ∧ n.updated_at = 7)) := by
  have h : create_note c7DB 9 7 "t" "c" "auth" "draft" "" [1] []
      [("supersedes", 5)] = .ok c7After := by
    rfl
  exact ⟨h, ((supersedes_cascade c7DB 9 7 "t" "c" "auth" "draft" "" [1] []
    [("supersedes", 5)]).1 c7After h).2 5 (by simp)⟩

end Zorgwaard
